import Mathlib

/-
Verification of the maternity-statistics data-processing pipeline
(src/process_data.py) against its natural-language specification.

The pipeline is shallowly embedded: pandas DataFrames become lists of
records, pandas cell values become an explicit float-like value type
with NaN and infinities over exact rationals, and fallible operations
return Except values.  Each numbered claim about the specification is
settled by a theorem about these definitions.
-/

/-- Python strings are modelled as lists of characters. -/
abbrev Str := List Char

/-- Shorthand turning a Lean string literal into the character-list model. -/
def str (s : String) : Str := s.data

/-- Characters from which the organisation-name synonym keys are built:
uppercase ASCII letters and the space. -/
def caps (c : Char) : Bool := c.isUpper || c == ' '

/-- Fuel-indexed worker for replaceAll.  The fuel only serves to make the
recursion structural; it is irrelevant as soon as it dominates the length of
the string (lemma replA_fuel). -/
def replA (p r : Str) : Nat → Str → Str
  | 0, s => s
  | _ + 1, [] => []
  | fuel + 1, c :: cs =>
    if p ≠ [] ∧ p.isPrefixOf (c :: cs) then
      r ++ replA p r fuel (cs.drop (p.length - 1))
    else
      c :: replA p r fuel cs

/-- Leftmost, non-overlapping replacement of every occurrence of the pattern
p by r, exactly as re.sub (equivalently str.replace) does for a literal
pattern.  pandas Series.replace with regex=True applies re.sub with each
dictionary key in insertion order, so this is the per-key building block of
map_org_name (src/process_data.py line 33). -/
def replaceAll (p r : Str) (s : Str) : Str :=
  replA p r s.length s

theorem replA_fuel (p r : Str) :
    ∀ fuel fuel' s, s.length ≤ fuel → s.length ≤ fuel' →
      replA p r fuel s = replA p r fuel' s := by
  intro fuel
  induction fuel with
  | zero =>
    intro fuel' s hs _
    match s, fuel' with
    | [], 0 => rfl
    | [], _ + 1 => rfl
    | c :: cs, _ => simp at hs
  | succ n ih =>
    intro fuel' s hs hs'
    match s, fuel' with
    | [], 0 => rfl
    | [], _ + 1 => rfl
    | c :: cs, 0 => simp at hs'
    | c :: cs, m + 1 =>
      simp only [List.length_cons, Nat.succ_le_succ_iff] at hs hs'
      have hd : (cs.drop (p.length - 1)).length ≤ cs.length := by
        simp only [List.length_drop]
        omega
      simp only [replA]
      by_cases hp : p ≠ [] ∧ p.isPrefixOf (c :: cs)
      · rw [if_pos hp, if_pos hp,
          ih m (cs.drop (p.length - 1)) (le_trans hd hs) (le_trans hd hs')]
      · rw [if_neg hp, if_neg hp, ih m cs hs hs']

theorem replaceAll_nil (p r : Str) : replaceAll p r [] = [] := rfl

theorem replaceAll_cons (p r : Str) (c : Char) (cs : Str) :
    replaceAll p r (c :: cs) =
      if p ≠ [] ∧ p.isPrefixOf (c :: cs) then
        r ++ replaceAll p r (cs.drop (p.length - 1))
      else
        c :: replaceAll p r cs := by
  show replA p r (c :: cs).length (c :: cs) = _
  have hd : (cs.drop (p.length - 1)).length ≤ cs.length := by
    simp only [List.length_drop]
    omega
  simp only [List.length_cons, replA]
  by_cases hp : p ≠ [] ∧ p.isPrefixOf (c :: cs)
  · rw [if_pos hp, if_pos hp]
    show _ ++ replA p r cs.length _ = _ ++ replA p r (cs.drop (p.length - 1)).length _
    rw [replA_fuel p r cs.length (cs.drop (p.length - 1)).length (cs.drop (p.length - 1))
      hd le_rfl]
  · rw [if_neg hp, if_neg hp]
    rfl

/-- Key 1 of the synonym dictionary (src/process_data.py lines 21-30). -/
def p1 : Str := str "LONDON COMMISSIONING REGION"

/-- Replacement for key 1. -/
def r1 : Str := str "London"

/-- Key 2 of the synonym dictionary. -/
def p2 : Str := str "SOUTH WEST COMMISSIONING REGION"

/-- Replacement for key 2. -/
def r2 : Str := str "South West"

/-- Key 3 of the synonym dictionary. -/
def p3 : Str := str "SOUTH EAST COMMISSIONING REGION"

/-- Replacement for key 3. -/
def r3 : Str := str "South East"

/-- Key 4 of the synonym dictionary. -/
def p4 : Str := str "MIDLANDS COMMISSIONING REGION"

/-- Replacement for key 4. -/
def r4 : Str := str "Midlands"

/-- Key 5 of the synonym dictionary. -/
def p5 : Str := str "EAST OF ENGLAND COMMISSIONING REGION"

/-- Replacement for key 5. -/
def r5 : Str := str "East of England"

/-- Key 6 of the synonym dictionary. -/
def p6 : Str := str "NORTH WEST COMMISSIONING REGION"

/-- Replacement for key 6. -/
def r6 : Str := str "North West"

/-- Key 7 of the synonym dictionary. -/
def p7 : Str := str "NORTH EAST AND YORKSHIRE COMMISSIONING REGION"

/-- Replacement for key 7. -/
def r7 : Str := str "North East and Yorkshire"

/-- Key 8 of the synonym dictionary. -/
def p8 : Str := str "ALL SUBMITTERS"

/-- Replacement for key 8. -/
def r8 : Str := str "All Submitters"

/-- The synonym dictionary of map_org_name (src/process_data.py lines 21-30),
in insertion order. -/
def nameDict : List (Str × Str) :=
  [ (p1, r1), (p2, r2), (p3, r3), (p4, r4), (p5, r5), (p6, r6), (p7, r7), (p8, r8) ]

/-- The effect of map_org_name on a single organisation name:
pandas Series.replace(name_dict, regex=True) applies the eight keys
sequentially in dictionary insertion order, each via re.sub substring
replacement (src/process_data.py line 33). -/
def mapNameStr (s : Str) : Str :=
  nameDict.foldl (fun t pr => replaceAll pr.1 pr.2 t) s

/-- The canonical short region names, the values of the synonym dictionary. -/
def canonicalNames : List Str := nameDict.map (fun pr => pr.2)

example : mapNameStr (str "LONDON COMMISSIONING REGION") = str "London" := by decide

example : mapNameStr (str "XLONDON COMMISSIONING REGIONX") = str "XLondonX" := by decide

example : mapNameStr (str "ALL SUBMITTERS") = str "All Submitters" := by decide

/-- Rational addition through mkRat.  The + of ℚ is irreducible in this
toolchain, so the embedding uses this equal, kernel-computable form. -/
def qAdd (a b : ℚ) : ℚ := mkRat (a.num * b.den + b.num * a.den) (a.den * b.den)

theorem qAdd_eq (a b : ℚ) : qAdd a b = a + b := (Rat.add_def' a b).symm

/-- Rational multiplication through mkRat, kernel-computable. -/
def qMul (a b : ℚ) : ℚ := mkRat (a.num * b.num) (a.den * b.den)

theorem qMul_eq (a b : ℚ) : qMul a b = a * b := (Rat.mul_eq_mkRat a b).symm

/-- Rational division through divInt, kernel-computable. -/
def qDiv (a b : ℚ) : ℚ := Rat.divInt (a.num * b.den) (a.den * b.num)

theorem qDiv_eq (a b : ℚ) : qDiv a b = a / b := (Rat.div_def' a b).symm

/-- Sum of a list of rationals, kernel-computable. -/
def qSum (l : List ℚ) : ℚ := l.foldr qAdd 0

theorem qSum_eq (l : List ℚ) : qSum l = l.sum := by
  induction l with
  | nil => rfl
  | cons x xs ih =>
    simp only [qSum, List.foldr_cons, qAdd_eq, List.sum_cons] at ih ⊢
    rw [ih]

/-- A pandas cell of a numeric column: either a number (modelled exactly as a
rational), NaN (also used for missing values), or one of the two float
infinities produced by division by zero. -/
inductive PVal where
  | na
  | pinf
  | ninf
  | num (q : ℚ)
deriving DecidableEq

/-- Float division as pandas performs it elementwise: n/0 gives +-inf for
nonzero n and NaN for 0/0; NaN propagates. -/
def pvDiv : PVal → PVal → PVal
  | .na, _ => .na
  | _, .na => .na
  | .num a, .num b =>
    if b = 0 then (if a = 0 then .na else if 0 < a then .pinf else .ninf)
    else .num (qDiv a b)
  | .pinf, .num b => if b < 0 then .ninf else .pinf
  | .ninf, .num b => if b < 0 then .pinf else .ninf
  | .num _, .pinf => .num 0
  | .num _, .ninf => .num 0
  | .pinf, .pinf => .na
  | .pinf, .ninf => .na
  | .ninf, .pinf => .na
  | .ninf, .ninf => .na

/-- Float addition (used between non-NaN summands inside a skipna sum). -/
def pvAdd : PVal → PVal → PVal
  | .na, _ => .na
  | _, .na => .na
  | .num a, .num b => .num (qAdd a b)
  | .pinf, .ninf => .na
  | .ninf, .pinf => .na
  | .pinf, _ => .pinf
  | _, .pinf => .pinf
  | .ninf, _ => .ninf
  | _, .ninf => .ninf

/-- pandas DataFrame.sum with the default skipna=True and min_count=0: NaN
summands are skipped and an all-missing selection sums to 0. -/
def sumPV (xs : List PVal) : PVal :=
  (xs.filter (fun v => v ≠ .na)).foldr pvAdd (.num 0)

/-- Multiplication by a scalar constant, as in Rate * 1000 and Rate * 100. -/
def pvScale (k : ℚ) : PVal → PVal
  | .na => .na
  | .num a => .num (qMul a k)
  | .pinf => if 0 < k then .pinf else if k = 0 then .na else .ninf
  | .ninf => if 0 < k then .ninf else if k = 0 then .na else .pinf

/-- One row of the primary statistics table.  lat and lon are none until
join_lat_lon_data fills them; year is set by return_data_for_time_series. -/
structure Row where
  orgName : Str
  orgCode : Str
  orgLevel : Str
  dimension : Str
  measure : Str
  value : PVal
  year : Str
  lat : Option ℚ
  lon : Option ℚ
deriving DecidableEq

/-- The Python exceptions the embedded pipeline can raise. -/
inductive PyErr where
  | keyError (key : Str)
  | missingColumns (cols : List Str)
  | duplicatePivot
  | emptyConcat
deriving DecidableEq

/-- Decidable equality of Except results, used by concrete evaluations. -/
instance instDecEqExcept {ε α : Type} [DecidableEq ε] [DecidableEq α] :
    DecidableEq (Except ε α) := fun x y =>
  match x, y with
  | .ok a, .ok b =>
    if h : a = b then .isTrue (by rw [h]) else .isFalse (by intro he; cases he; exact h rfl)
  | .error a, .error b =>
    if h : a = b then .isTrue (by rw [h]) else .isFalse (by intro he; cases he; exact h rfl)
  | .ok _, .error _ => .isFalse (by intro he; cases he)
  | .error _, .ok _ => .isFalse (by intro he; cases he)

/-- Python dict lookup (first, hence unique, binding of an association list). -/
def lookupA {α : Type} (l : List (Str × α)) (k : Str) : Option α :=
  (l.find? (fun pr => pr.1 == k)).map (fun pr => pr.2)

/-- map_org_name (src/process_data.py lines 8-35): rewrite the Org_Name
column with the synonym dictionary via regex substring replacement. -/
def mapOrgName (df : List Row) : List Row :=
  df.map (fun r => { r with orgName := mapNameStr r.orgName })

/-- Exact whole-value replacement: pandas Series.replace with a plain dict
(regex=False) replaces only cells equal to a key. -/
def replaceExact (d : List (Str × Str)) (s : Str) : Str :=
  match lookupA d s with
  | some t => t
  | none => s

/-- Dimension label aliases (src/process_data.py lines 50-54). -/
def dimensionReplaceDict : List (Str × Str) :=
  [ (str "SmokingAtBooking", str "SmokingStatusGroupBooking"),
    (str "MethodOfDelivery", str "DeliveryMethodBabyGroup"),
    (str "FolicAcidStatusGroupBooking", str "FolicAcidSupplement") ]

/-- Measure label spelling variants (src/process_data.py lines 58-62). -/
def measureReplaceDict : List (Str × Str) :=
  [ (str "Missing Value / Value outside reporting parameters", str "Missing value"),
    (str "Missing Value/Value outside reporting parameters", str "Missing value"),
    (str "Missing value / Value outside reporting parameters", str "Missing value") ]

/-- Deprivation decile zero padding (src/process_data.py lines 66-75). -/
def deprivationReplaceDict : List (Str × Str) :=
  [ (str "2", str "02"), (str "3", str "03"), (str "4", str "04"),
    (str "5", str "05"), (str "6", str "06"), (str "7", str "07"),
    (str "8", str "08"), (str "9", str "09") ]

/-- make_values_consistant (src/process_data.py lines 38-81): canonicalise
Dimension, then Measure, then zero-pad Measure on deprivation rows (the
condition reads the already-updated Dimension column). -/
def makeValuesConsistant (df : List Row) : List Row :=
  df.map (fun r =>
    let r1 := { r with dimension := replaceExact dimensionReplaceDict r.dimension }
    let r2 := { r1 with measure := replaceExact measureReplaceDict r1.measure }
    if r2.dimension = str "DeprivationDecileAtBooking" then
      { r2 with measure := replaceExact deprivationReplaceDict r2.measure }
    else r2)

/-- filter_for_measure_and_level (src/process_data.py lines 84-104): keep the
rows whose Org_Level equals org_level, then those whose Dimension equals
dimension (exact, case-sensitive equality in both steps). -/
def filterForMeasureAndLevel (df : List Row) (dimension orgLevel : Str) : List Row :=
  (df.filter (fun r => r.orgLevel == orgLevel)).filter (fun r => r.dimension == dimension)

/-- Stable insertion: place x before the first element y with le x y.
With a total preorder le this is the insertion step of a stable
ascending sort. -/
def insertLe {α : Type} (le : α → α → Bool) (x : α) : List α → List α
  | [] => [x]
  | y :: ys => if le x y then x :: y :: ys else y :: insertLe le x ys

/-- Ascending insertion sort (stable), used as the deterministic
representative of the sorting the pandas calls perform.  Note that pandas
itself fixes the output order only up to ties: sort_values with the default
kind="quicksort" guarantees original order for the null-keyed block
(nargsort appends the null positions in input order) but not for rows with
equal present keys; the relation sortValuesOutcome below captures exactly
that contract, and this function realises one of its outcomes. -/
def sortL {α : Type} (le : α → α → Bool) : List α → List α
  | [] => []
  | x :: xs => insertLe le x (sortL le xs)

/-- Code-point comparison of characters. -/
def charLe (a b : Char) : Bool := decide (a.val ≤ b.val)

/-- Lexicographic comparison of strings, as pandas sorts string keys. -/
def lexLe : Str → Str → Bool
  | [], _ => true
  | _ :: _, [] => false
  | a :: as, b :: bs => if a = b then lexLe as bs else charLe a b

/-- Lexicographic comparison of string pairs (for two-column group keys). -/
def pairLexLe (a b : Str × Str) : Bool :=
  if a.1 = b.1 then lexLe a.2 b.2 else lexLe a.1 b.1

/-- First-occurrence deduplication, as drop_duplicates and unique keep the
first of each repeated key. -/
def dedupF {α : Type} [DecidableEq α] : List α → List α :=
  go []
where
  go (seen : List α) : List α → List α
    | [] => []
    | x :: xs => if x ∈ seen then go seen xs else x :: go (x :: seen) xs

/-- Whether a key list contains a repeated key. -/
def hasDup {α : Type} [DecidableEq α] : List α → Bool
  | [] => false
  | x :: xs => x ∈ xs || hasDup xs

/-- A row of the frame produced by pivot: one organisation with one cell per
measure column. -/
structure PivRow where
  orgName : Str
  cells : List (Str × PVal)
deriving DecidableEq

/-- A pivoted row together with its computed Rate (get_rates output). -/
structure RateRow where
  orgName : Str
  cells : List (Str × PVal)
  rate : PVal
deriving DecidableEq

/-- The cell of the pivoted frame at (org, measure): the Value of the unique
matching input row, NaN when the organisation has no row for that measure. -/
def cellVal (df : List Row) (org c : Str) : PVal :=
  match df.find? (fun r => r.orgName == org && r.measure == c) with
  | some r => r.value
  | none => .na

/-- The column labels of the pivoted frame: the distinct Measure values,
sorted as pandas sorts pivot columns. -/
def pivotCols (df : List Row) : List Str :=
  sortL lexLe (dedupF (df.map (fun r => r.measure)))

/-- df.pivot(columns="Measure", values="Value", index="Org_Name") as in
src/process_data.py lines 123-125: raises when some (Org_Name, Measure)
pair occurs twice, otherwise one row per distinct organisation (index
sorted), one column per distinct measure. -/
def pivot (df : List Row) : Except PyErr (List PivRow) :=
  if hasDup (df.map (fun r => (r.orgName, r.measure))) then
    .error .duplicatePivot
  else
    .ok ((sortL lexLe (dedupF (df.map (fun r => r.orgName)))).map
      (fun o => ⟨o, (pivotCols df).map (fun c => (c, cellVal df o c))⟩))

/-- Numerator/denominator measure sets configured for one dimension. -/
structure MeasureEntry where
  numerator : List Str
  denominator : List Str
deriving DecidableEq

/-- The nested measure_dict configuration: org level → dimension → entry. -/
abbrev MeasureDict := List (Str × List (Str × MeasureEntry))

/-- The cell of a pivoted row in a given column. -/
def cellOf (pr : PivRow) (c : Str) : PVal :=
  match lookupA pr.cells c with
  | some v => v
  | none => .na

/-- The column check of df_pivoted[cols]: selecting names that are not
among the frame's columns raises a KeyError listing the missing ones,
whatever the number of rows. -/
def checkCols (cols : List Str) (allCols : List Str) : Except PyErr Unit :=
  if cols.all (fun c => allCols.contains c) then
    .ok ()
  else
    .error (.missingColumns (cols.filter (fun c => !(allCols.contains c))))

/-- get_rates (src/process_data.py lines 107-136): pivot, look up the
numerator and denominator measure names for (org_level, dimension) in
measure_dict (a missing key raises KeyError naming it), select the two
column sets, and divide the row-wise skipna sums. -/
def getRates (df : List Row) (dimension : Str) (md : MeasureDict) (orgLevel : Str) :
    Except PyErr (List RateRow) := do
  let piv ← pivot df
  match lookupA md orgLevel with
  | none => .error (.keyError orgLevel)
  | some dimMap =>
    match lookupA dimMap dimension with
    | none => .error (.keyError dimension)
    | some entry => do
      let cols := pivotCols df
      let _ ← checkCols entry.numerator cols
      let _ ← checkCols entry.denominator cols
      .ok (piv.map (fun pr =>
        ⟨pr.orgName, pr.cells,
          pvDiv (sumPV (entry.numerator.map (fun c => cellOf pr c)))
            (sumPV (entry.denominator.map (fun c => cellOf pr c)))⟩))

/-- One row of the raw population spreadsheet: the two grouping key columns
configured in pop_source (region name, region code) and the Total column. -/
structure PopRow where
  name : Str
  code : Str
  total : ℚ
deriving DecidableEq

/-- df_pop.groupby(config.pop_source[year][2])["Total"].sum().reset_index()
(src/process_data.py line 158): group the raw population rows by the
(name, code) key pair, sum Total per group, keys sorted as groupby sorts. -/
def aggPop (pop : List PopRow) : List (Str × Str × ℚ) :=
  (sortL pairLexLe (dedupF (pop.map (fun p => (p.name, p.code))))).map
    (fun k => (k.1, k.2,
      qSum ((pop.filter (fun p => p.name == k.1 && p.code == k.2)).map
        (fun p => p.total))))

/-- A statistics row with the merged population total and computed rate. -/
structure JoinedRow where
  row : Row
  total : Option ℚ
  rate : PVal
deriving DecidableEq

/-- join_pop_data (src/process_data.py lines 139-169) given the raw
population table of the requested year: aggregate it, left-merge on
Org_Name against the aggregated name column, and set
Rate = Value / Total.  An unmatched organisation keeps NaN for Total, so
its rate is NaN; several aggregated rows with the same name duplicate the
left row, as merge does. -/
def joinPopData (df : List Row) (pop : List PopRow) : List JoinedRow :=
  df.flatMap (fun r =>
    match (aggPop pop).filter (fun t => t.1 == r.orgName) with
    | [] => [⟨r, none, pvDiv r.value .na⟩]
    | m :: ms => (m :: ms).map (fun t => ⟨r, some t.2.2, pvDiv r.value (.num t.2.2)⟩))

/-- The special-dimension rate step shared by return_data_for_map (lines
207-208), return_data_for_special_bar_chart (lines 248-249) and
return_data_for_time_series (lines 306-307): join population data and
scale the rate by 1000. -/
def specialRates (df : List Row) (pop : List PopRow) : List JoinedRow :=
  (joinPopData df pop).map (fun j => { j with rate := pvScale 1000 j.rate })

/-- One row of the static coordinates file data/locations.csv. -/
structure LocRow where
  code : Str
  latitude : ℚ
  longitude : ℚ
deriving DecidableEq

/-- join_lat_lon_data (src/process_data.py lines 172-182): left merge on
Org_Code = org_code; unmatched rows keep missing coordinates, several
matching reference rows duplicate the statistics row. -/
def joinLatLon (df : List Row) (locs : List LocRow) : List Row :=
  df.flatMap (fun r =>
    match locs.filter (fun l => l.code == r.orgCode) with
    | [] => [{ r with lat := none, lon := none }]
    | m :: ms => (m :: ms).map (fun l => { r with lat := some l.latitude, lon := some l.longitude }))

/-- One row of the finished map table: organisation, its rate, the Percent
column (absent on the special path), and coordinates. -/
structure MapRow where
  orgName : Str
  rate : PVal
  percent : Option PVal
  lat : Option ℚ
  lon : Option ℚ
deriving DecidableEq

/-- The deduplicated (Org_Name, latitude, longitude) triples of the filtered
frame, as df[["Org_Name", "latitude", "longitude"]].drop_duplicates(). -/
def latLonTriples (df : List Row) : List (Str × Option ℚ × Option ℚ) :=
  dedupF (df.map (fun r => (r.orgName, r.lat, r.lon)))

/-- The merge at src/process_data.py lines 215-220 for the ordinary path:
the pivoted rate frame has no coordinate columns, so the left-joined
latitude/longitude fill the lat/lon fields (missing when unmatched,
duplicated rows when several triples share the name). -/
def mergeLatLonFill (rows : List MapRow) (df : List Row) : List MapRow :=
  rows.flatMap (fun m =>
    match (latLonTriples df).filter (fun t => t.1 == m.orgName) with
    | [] => [{ m with lat := none, lon := none }]
    | t :: ts => (t :: ts).map (fun t => { m with lat := t.2.1, lon := t.2.2 }))

/-- The same merge on the special path: there the rate frame already carries
latitude/longitude, the colliding merged copies get the "_" suffix and are
never read, so each output row keeps its own coordinates; only the row
multiplicity of the merge is observable. -/
def mergeLatLonKeep (rows : List MapRow) (df : List Row) : List MapRow :=
  rows.flatMap (fun m =>
    match (latLonTriples df).filter (fun t => t.1 == m.orgName) with
    | [] => [m]
    | t :: ts => (t :: ts).map (fun _ => m))

/-- The sort key: Org_Name mapped through the region_order dict, a missing
name giving NaN (src/process_data.py line 224). -/
def rankOf (regionOrder : List (Str × ℚ)) (name : Str) : Option ℚ :=
  lookupA regionOrder name

/-- Comparison on mapped ranks with missing ranks last, the order
sort_values(..., na_position="last") sorts by. -/
def rankLe (regionOrder : List (Str × ℚ)) (x y : MapRow) : Bool :=
  match rankOf regionOrder x.orgName, rankOf regionOrder y.orgName with
  | some a, some b => decide (a ≤ b)
  | some _, none => true
  | none, some _ => false
  | none, none => true

/-- The row reordering of src/process_data.py lines 223-225,
df.sort_values("Org_Name", key=lambda col: col.map(config.region_order)),
as the deterministic representative outcome used by the rest of the
embedding.  The order pandas actually produces among equally-ranked rows is
unspecified (quicksort); the claims proved through returnDataForMap do not
depend on it, and the sort step itself is characterised faithfully by
sortValuesOutcome below. -/
def sortByRegionOrder (regionOrder : List (Str × ℚ)) (rows : List MapRow) : List MapRow :=
  sortL (rankLe regionOrder) rows

/-- The contract of df.sort_values("Org_Name", key=..., na_position="last",
default kind="quicksort") at src/process_data.py lines 223-225: a legal
output is any permutation of the input that is ascending in the mapped rank
(missing ranks last, as rankLe orders them) and whose missing-rank block
keeps its original relative order — nargsort appends the NaN positions in
input order, while the relative order of rows with equal present ranks is
left unspecified by the non-stable quicksort. -/
def sortValuesOutcome (regionOrder : List (Str × ℚ)) (rows out : List MapRow) : Prop :=
  out.Perm rows ∧
  out.Pairwise (fun x y => rankLe regionOrder x y = true) ∧
  out.filter (fun m => (rankOf regionOrder m.orgName).isNone) =
    rows.filter (fun m => (rankOf regionOrder m.orgName).isNone)

/-- return_data_for_map (src/process_data.py lines 185-227) with the file
reads replaced by the tables they produce: normalise names and labels, join
coordinates, filter, compute rates on the special or ordinary path, merge
the coordinates back and enforce the region order. -/
def returnDataForMap (df0 : List Row) (locs : List LocRow)
    (popSource : List (Str × List PopRow)) (specialDimensions : List Str)
    (md : MeasureDict) (regionOrder : List (Str × ℚ))
    (dimension orgLevel year : Str) : Except PyErr (List MapRow) := do
  let df1 := mapOrgName df0
  let df2 := makeValuesConsistant df1
  let df3 := joinLatLon df2 locs
  let df4 := filterForMeasureAndLevel df3 dimension orgLevel
  if specialDimensions.contains dimension then
    match lookupA popSource year with
    | none => .error (.keyError year)
    | some pop =>
      let rated := (specialRates df4 pop).map
        (fun j => (⟨j.row.orgName, j.rate, none, j.row.lat, j.row.lon⟩ : MapRow))
      .ok (sortByRegionOrder regionOrder (mergeLatLonKeep rated df4))
  else do
    let rr ← getRates df4 dimension md orgLevel
    let rated := rr.map
      (fun x => (⟨x.orgName, x.rate, some (pvScale 100 x.rate), none, none⟩ : MapRow))
    .ok (sortByRegionOrder regionOrder (mergeLatLonFill rated df4))

/-- The result of return_data_for_time_series: a plain filtered frame for
ordinary dimensions, a population-rated frame for special ones. -/
inductive TSResult where
  | plain (rows : List Row)
  | special (rows : List JoinedRow)
deriving DecidableEq

/-- The per-year tagged tables of return_data_for_time_series (lines
277-286): each year's frame gets its year written into the year column and
is appended to the list, iterating the data_source dict in order. -/
def tagYears (dataSource : List (Str × List Row)) : List (List Row) :=
  dataSource.foldl (fun acc p => acc ++ [p.2.map (fun r => { r with year := p.1 })]) []

/-- The forced organisation level of lines 292-295: special dimensions at
National or Provider level are shown as the region breakdown instead. -/
def forcedOrgLevel (specialDimensions : List Str) (dimension orgLevel : Str) : Str :=
  if specialDimensions.contains dimension &&
      (orgLevel == str "National" || orgLevel == str "Provider") then
    str "NHS England (Region)"
  else orgLevel

/-- return_data_for_time_series (src/process_data.py lines 275-309) with the
file reads replaced by the tables they produce: tag and concatenate every
configured year (pd.concat raises on an empty configuration), force the
region level for special dimensions, filter, then normalise names and
labels; ordinary dimensions then filter to the requested location while
special ones join population data — using the year variable left over from
the loading loop, i.e. the last configured year. -/
def returnDataForTimeSeries (dataSource : List (Str × List Row))
    (popSource : List (Str × List PopRow)) (specialDimensions : List Str)
    (dimension orgLevel location : Str) : Except PyErr TSResult :=
  match tagYears dataSource with
  | [] => .error .emptyConcat
  | t :: ts =>
    let combined := (t :: ts).flatten
    let orgLevelF := forcedOrgLevel specialDimensions dimension orgLevel
    let c1 := filterForMeasureAndLevel combined dimension orgLevelF
    let c2 := mapOrgName c1
    let c3 := makeValuesConsistant c2
    if specialDimensions.contains dimension then
      match dataSource.getLast? with
      | none => .error .emptyConcat
      | some lastPair =>
        match lookupA popSource lastPair.1 with
        | none => .error (.keyError lastPair.1)
        | some pop => .ok (.special (specialRates c3 pop))
    else
      .ok (.plain (c3.filter (fun r => r.orgName == location)))

/-- A Utla-style concrete statistics row used by witnesses. -/
def mkRow (name code level dim meas : String) (v : PVal) : Row :=
  ⟨str name, str code, str level, str dim, str meas, v, str "", none, none⟩

/-- C6: filter_for_measure_and_level is a subset operation: its output rows
form a sublist of the input, every output row matches the requested
dimension and organisation level under exact case-sensitive string
equality, and when nothing matches the result is the empty table rather
than an error. -/
theorem C6_row_filter (df : List Row) (dimension orgLevel : Str) :
    List.Sublist (filterForMeasureAndLevel df dimension orgLevel) df ∧
    (∀ r ∈ filterForMeasureAndLevel df dimension orgLevel,
      r.dimension = dimension ∧ r.orgLevel = orgLevel) ∧
    ((∀ r ∈ df, ¬(r.dimension = dimension ∧ r.orgLevel = orgLevel)) →
      filterForMeasureAndLevel df dimension orgLevel = []) := by
  refine ⟨(List.filter_sublist _).trans (List.filter_sublist _), ?_, ?_⟩
  · intro r hr
    simp only [filterForMeasureAndLevel, List.mem_filter, beq_iff_eq] at hr
    exact ⟨hr.2, hr.1.2⟩
  · intro h
    rw [List.eq_nil_iff_forall_not_mem]
    intro r hr
    simp only [filterForMeasureAndLevel, List.mem_filter, beq_iff_eq] at hr
    exact h r hr.1.1 ⟨hr.2, hr.1.2⟩

/-- Witness for C6 at a concrete table on which nothing matches. -/
theorem C6_row_filter_witness :
    List.Sublist
      (filterForMeasureAndLevel [mkRow "X" "C1" "Provider" "DimA" "M" (.num 1)]
        (str "DimB") (str "Provider"))
      [mkRow "X" "C1" "Provider" "DimA" "M" (.num 1)] ∧
    (∀ r ∈ filterForMeasureAndLevel [mkRow "X" "C1" "Provider" "DimA" "M" (.num 1)]
        (str "DimB") (str "Provider"),
      r.dimension = str "DimB" ∧ r.orgLevel = str "Provider") ∧
    filterForMeasureAndLevel [mkRow "X" "C1" "Provider" "DimA" "M" (.num 1)]
        (str "DimB") (str "Provider") = [] := by
  obtain ⟨h1, h2, h3⟩ :=
    C6_row_filter [mkRow "X" "C1" "Provider" "DimA" "M" (.num 1)] (str "DimB") (str "Provider")
  exact ⟨h1, h2, h3 (by decide)⟩

/-- C5 as stated is false: because map_org_name replaces with regex=True,
a dictionary key occurring as a proper substring is rewritten inside the
surrounding name, producing a value that is neither canonical nor the
unchanged input. -/
theorem C5_normalizer_cex :
    ¬(mapNameStr (str "XLONDON COMMISSIONING REGIONX") = str "XLONDON COMMISSIONING REGIONX" ∨
      mapNameStr (str "XLONDON COMMISSIONING REGIONX") ∈ canonicalNames) := by
  decide

/-- The measure mapping lookup that get_rates performs:
measure_dict[org_level][dimension]. -/
def lookup2 (md : MeasureDict) (orgLevel dimension : Str) : Option MeasureEntry :=
  match lookupA md orgLevel with
  | none => none
  | some dimMap => lookupA dimMap dimension

/-- The key a failing measure-mapping lookup reports: the organisation level
when it is absent, otherwise the dimension. -/
def missingKey (md : MeasureDict) (orgLevel dimension : Str) : Str :=
  match lookupA md orgLevel with
  | none => orgLevel
  | some _ => dimension

/-- C3: a request whose (org_level, dimension) pair is absent from
measure_dict never yields a rate table from get_rates, and — whenever the
pivot itself succeeds — get_rates raises exactly the KeyError naming the
missing key.  In particular no silent empty-measure-set sum is possible. -/
theorem C3_missing_mapping (df : List Row) (dimension : Str) (md : MeasureDict)
    (orgLevel : Str) (h : lookup2 md orgLevel dimension = none) :
    (∀ t, getRates df dimension md orgLevel ≠ .ok t) ∧
    (∀ piv, pivot df = .ok piv →
      getRates df dimension md orgLevel =
        .error (.keyError (missingKey md orgLevel dimension))) := by
  cases hpiv : pivot df with
  | error e =>
    constructor
    · intro t
      simp [getRates, hpiv, Bind.bind, Except.bind]
    · intro piv hp
      cases hp
  | ok piv =>
    cases hol : lookupA md orgLevel with
    | none =>
      constructor
      · intro t
        simp [getRates, hpiv, hol, Bind.bind, Except.bind]
      · intro piv' hp
        simp only [getRates, hpiv, hol, missingKey, Bind.bind, Except.bind]
    | some dimMap =>
      have hdim : lookupA dimMap dimension = none := by
        simpa [lookup2, hol] using h
      constructor
      · intro t
        simp [getRates, hpiv, hol, hdim, Bind.bind, Except.bind]
      · intro piv' hp
        simp only [getRates, hpiv, hol, hdim, missingKey, Bind.bind, Except.bind]

/-- Witness for C3: a concrete pivotable table with an empty measure_dict. -/
theorem C3_missing_mapping_witness :
    lookup2 [] (str "NHS England (Region)") (str "DimA") = none ∧
    (∀ t, getRates [mkRow "X" "C1" "NHS England (Region)" "DimA" "M" (.num 1)]
      (str "DimA") [] (str "NHS England (Region)") ≠ .ok t) ∧
    getRates [mkRow "X" "C1" "NHS England (Region)" "DimA" "M" (.num 1)]
      (str "DimA") [] (str "NHS England (Region)") =
      .error (.keyError (missingKey [] (str "NHS England (Region)") (str "DimA"))) := by
  obtain ⟨h1, h2⟩ :=
    C3_missing_mapping [mkRow "X" "C1" "NHS England (Region)" "DimA" "M" (.num 1)]
      (str "DimA") [] (str "NHS England (Region)") (by decide)
  refine ⟨by decide, h1, h2 ?piv ?hp⟩
  case piv =>
    exact [⟨str "X", [(str "M", .num 1)]⟩]
  case hp =>
    decide

/-- The measure mapping used by the concrete rate examples: one organisation
level, one dimension, numerator {Num} and denominator {Den}. -/
def exMd : MeasureDict :=
  [ (str "NHS England (Region)",
      [ (str "DimA", ⟨[str "Num"], [str "Den"]⟩) ]) ]

/-- The concrete get_rates input of C1's failing case: one organisation with
numerator value 1 and denominator value 0. -/
def c1Df : List Row :=
  [ mkRow "X" "C1" "NHS England (Region)" "DimA" "Num" (.num 1),
    mkRow "X" "C1" "NHS England (Region)" "DimA" "Den" (.num 0) ]

/-- C1 names a real divergence of the code: on a table whose single
organisation has numerator sum 1 and denominator sum 0, get_rates raises no
error but produces a Rate of +infinity — pandas float division — rather
than the missing/non-numeric marker the specification requires. -/
theorem C1_zero_denominator_not_missing :
    (getRates c1Df (str "DimA") exMd (str "NHS England (Region)")).map
      (fun l => l.map (fun x => x.rate)) = .ok [PVal.pinf] := by
  decide

/-- str.replace leaves a string without any occurrence of the pattern
untouched. -/
theorem replaceAll_of_no_occurrence (p r : Str) :
    ∀ s, ¬ p <:+: s → replaceAll p r s = s := by
  intro s
  induction s with
  | nil => intro _; exact replaceAll_nil p r
  | cons c cs ih =>
    intro h
    rw [replaceAll_cons, if_neg ?notpre]
    · rw [ih (fun hcs => h (List.infix_cons hcs))]
    case notpre =>
      rintro ⟨-, hpre⟩
      exact h (List.isPrefixOf_iff_prefix.mp hpre).isInfix

/-- C5 amended: map_org_name acts by substring replacement: a name in which
no dictionary key occurs as a substring passes through completely unchanged,
and a name equal to a dictionary key becomes exactly its canonical short
form. -/
theorem C5_amended_normalizer :
    (∀ s : Str, (∀ pr ∈ nameDict, ¬ pr.1 <:+: s) → mapNameStr s = s) ∧
    (∀ pr ∈ nameDict, mapNameStr pr.1 = pr.2) := by
  constructor
  · intro s h
    simp only [mapNameStr, nameDict, List.foldl_cons, List.foldl_nil]
    rw [replaceAll_of_no_occurrence p1 r1 s (h (p1, r1) (by decide)),
      replaceAll_of_no_occurrence p2 r2 s (h (p2, r2) (by decide)),
      replaceAll_of_no_occurrence p3 r3 s (h (p3, r3) (by decide)),
      replaceAll_of_no_occurrence p4 r4 s (h (p4, r4) (by decide)),
      replaceAll_of_no_occurrence p5 r5 s (h (p5, r5) (by decide)),
      replaceAll_of_no_occurrence p6 r6 s (h (p6, r6) (by decide)),
      replaceAll_of_no_occurrence p7 r7 s (h (p7, r7) (by decide)),
      replaceAll_of_no_occurrence p8 r8 s (h (p8, r8) (by decide))]
  · decide

/-- Witness for C5's amended statement at a name the dictionary does not
touch. -/
theorem C5_amended_normalizer_witness :
    (∀ pr ∈ nameDict, ¬ pr.1 <:+: str "GUYS AND ST THOMAS NHS FOUNDATION TRUST") ∧
    mapNameStr (str "GUYS AND ST THOMAS NHS FOUNDATION TRUST") =
      str "GUYS AND ST THOMAS NHS FOUNDATION TRUST" :=
  ⟨by decide, C5_amended_normalizer.1 _ (by decide)⟩

/-- pandas NaN is absorbing on the right of a division. -/
theorem pvDiv_na_right (x : PVal) : pvDiv x .na = .na := by
  cases x <;> rfl

/-- C2: on the special (population-normalised) path, an output row whose
Value is the number v and whose organisation name matches exactly one
aggregated population row with total p carries Rate = (v/p)*1000, and an
output row whose organisation name matches no aggregated population row
carries a missing Rate; no exception arises in either case. -/
theorem C2_special_path (df : List Row) (pop : List PopRow) :
    ∀ j ∈ specialRates df pop,
      (∀ v nm cd pq, j.row.value = .num v →
        (aggPop pop).filter (fun t => t.1 == j.row.orgName) = [(nm, cd, pq)] → pq ≠ 0 →
        j.rate = .num (v / pq * 1000)) ∧
      ((aggPop pop).filter (fun t => t.1 == j.row.orgName) = [] → j.rate = PVal.na) := by
  intro j hj
  simp only [specialRates, List.mem_map] at hj
  obtain ⟨j0, hj0, rfl⟩ := hj
  simp only [joinPopData, List.mem_flatMap] at hj0
  obtain ⟨r, hr, hmem⟩ := hj0
  cases hagg : (aggPop pop).filter (fun t => t.1 == r.orgName) with
  | nil =>
    rw [hagg] at hmem
    simp only [List.mem_singleton] at hmem
    subst hmem
    constructor
    · intro v nm cd pq hv hf hpq
      rw [hagg] at hf
      cases hf
    · intro _
      rw [pvDiv_na_right]
      rfl
  | cons m ms =>
    rw [hagg] at hmem
    simp only [List.mem_map] at hmem
    obtain ⟨t, ht, rfl⟩ := hmem
    constructor
    · intro v nm cd pq hv hf hpq
      rw [hagg] at hf
      cases hf
      simp only [List.mem_singleton] at ht
      subst ht
      simp only at hv ⊢
      rw [hv]
      simp only [pvDiv, if_neg hpq, pvScale]
      rw [qDiv_eq, qMul_eq]
    · intro hf
      rw [hagg] at hf
      cases hf

/-- A concrete special-path table: London matches the population reference,
Narnia does not. -/
def c2Df : List Row :=
  [ mkRow "London" "RY1" "NHS England (Region)" "TotalBabies" "M" (.num 500),
    mkRow "Narnia" "RY2" "NHS England (Region)" "TotalBabies" "M" (.num 7) ]

/-- A raw population table whose two London rows aggregate to 50000. -/
def c2Pop : List PopRow :=
  [ ⟨str "London", str "E12000007", 30000⟩, ⟨str "London", str "E12000007", 20000⟩ ]

/-- The joined output row for London. -/
def c2RowLondon : JoinedRow :=
  ⟨mkRow "London" "RY1" "NHS England (Region)" "TotalBabies" "M" (.num 500),
    some 50000, pvScale 1000 (pvDiv (.num 500) (.num 50000))⟩

/-- The joined output row for Narnia. -/
def c2RowNarnia : JoinedRow :=
  ⟨mkRow "Narnia" "RY2" "NHS England (Region)" "TotalBabies" "M" (.num 7),
    none, pvScale 1000 (pvDiv (.num 7) .na)⟩

/-- Witness for C2: (500 / 50000) * 1000 for the matched organisation, NaN
for the unmatched one. -/
theorem C2_special_path_witness :
    c2RowLondon ∈ specialRates c2Df c2Pop ∧
    c2RowLondon.rate = PVal.num (500 / 50000 * 1000) ∧
    c2RowNarnia ∈ specialRates c2Df c2Pop ∧
    c2RowNarnia.rate = PVal.na :=
  ⟨by decide,
   (C2_special_path c2Df c2Pop c2RowLondon (by decide)).1 500 (str "London")
     (str "E12000007") 50000 rfl (by decide) (by norm_num),
   by decide,
   (C2_special_path c2Df c2Pop c2RowNarnia (by decide)).2 (by decide)⟩

theorem insertLe_perm {α : Type} (le : α → α → Bool) (x : α) (l : List α) :
    (insertLe le x l).Perm (x :: l) := by
  induction l with
  | nil => exact List.Perm.refl _
  | cons y ys ih =>
    simp only [insertLe]
    by_cases h : le x y
    · rw [if_pos h]
    · rw [if_neg h]
      exact (ih.cons y).trans (List.Perm.swap x y ys)

theorem sortL_perm {α : Type} (le : α → α → Bool) (l : List α) :
    (sortL le l).Perm l := by
  induction l with
  | nil => exact List.Perm.refl _
  | cons x xs ih => exact (insertLe_perm le x (sortL le xs)).trans (ih.cons x)

theorem insertLe_pairwise {α : Type} (le : α → α → Bool)
    (htot : ∀ a b, le a b || le b a)
    (htrans : ∀ a b c, le a b = true → le b c = true → le a c = true)
    (x : α) (l : List α) (h : l.Pairwise (fun a b => le a b = true)) :
    (insertLe le x l).Pairwise (fun a b => le a b = true) := by
  induction l with
  | nil => simp [insertLe]
  | cons y ys ih =>
    rcases List.pairwise_cons.mp h with ⟨hy, hys⟩
    by_cases hxy : le x y
    · simp only [insertLe, if_pos hxy]
      refine List.pairwise_cons.mpr ⟨?_, h⟩
      intro b hb
      rcases List.mem_cons.mp hb with hb | hb
      · rw [hb]
        exact hxy
      · exact htrans x y b hxy (hy b hb)
    · simp only [insertLe, if_neg hxy]
      refine List.pairwise_cons.mpr ⟨?_, ih hys⟩
      intro b hb
      rcases List.mem_cons.mp ((insertLe_perm le x ys).mem_iff.mp hb) with hb | hb
      · rw [hb]
        rcases Bool.or_eq_true_iff.mp (htot x y) with h1 | h1
        · exact absurd h1 hxy
        · exact h1
      · exact hy b hb

theorem sortL_pairwise {α : Type} (le : α → α → Bool)
    (htot : ∀ a b, le a b || le b a)
    (htrans : ∀ a b c, le a b = true → le b c = true → le a c = true)
    (l : List α) : (sortL le l).Pairwise (fun a b => le a b = true) := by
  induction l with
  | nil => simp [sortL]
  | cons x xs ih => exact insertLe_pairwise le htot htrans x (sortL le xs) ih

theorem filter_insertLe {α : Type} (le : α → α → Bool) (q : α → Bool) (x : α)
    (l : List α) (hkey : ∀ b, q x = true → q b = true → le x b = true) :
    (insertLe le x l).filter q = if q x then x :: l.filter q else l.filter q := by
  induction l with
  | nil =>
    by_cases hqx : q x <;> simp [insertLe, List.filter, hqx]
  | cons y ys ih =>
    by_cases hxy : le x y
    · simp only [insertLe, if_pos hxy]
      by_cases hqx : q x
      · simp [List.filter_cons, hqx]
      · simp [List.filter_cons, hqx]
    · simp only [insertLe, if_neg hxy]
      by_cases hqx : q x
      · have hqy : q y = false := by
          cases hy : q y
          · rfl
          · exact absurd (hkey y hqx hy) hxy
        simp [List.filter_cons, hqy, ih, hqx]
      · simp [List.filter_cons, ih, hqx]

theorem filter_sortL {α : Type} (le : α → α → Bool) (q : α → Bool) (l : List α)
    (hkey : ∀ a b, q a = true → q b = true → le a b = true) :
    (sortL le l).filter q = l.filter q := by
  induction l with
  | nil => rfl
  | cons x xs ih =>
    simp only [sortL]
    rw [filter_insertLe le q x (sortL le xs) (fun b => hkey x b)]
    by_cases hqx : q x
    · simp [List.filter_cons, hqx, ih]
    · simp [List.filter_cons, hqx, ih]

theorem rankLe_total (ro : List (Str × ℚ)) (x y : MapRow) :
    rankLe ro x y || rankLe ro y x := by
  simp only [rankLe]
  cases rankOf ro x.orgName with
  | none => cases rankOf ro y.orgName <;> simp
  | some a =>
    cases rankOf ro y.orgName with
    | none => simp
    | some b =>
      simp only [Bool.or_eq_true_iff, decide_eq_true_eq]
      exact le_total a b

theorem rankLe_trans (ro : List (Str × ℚ)) (a b c : MapRow)
    (h1 : rankLe ro a b = true) (h2 : rankLe ro b c = true) :
    rankLe ro a c = true := by
  simp only [rankLe] at h1 h2 ⊢
  cases ha : rankOf ro a.orgName with
  | none =>
    rw [ha] at h1
    cases hb : rankOf ro b.orgName with
    | none =>
      rw [hb] at h2
      cases hc : rankOf ro c.orgName with
      | none => rfl
      | some z =>
        rw [hc] at h2
        cases h2
    | some z =>
      rw [hb] at h1
      cases h1
  | some x =>
    rw [ha] at h1
    cases hb : rankOf ro b.orgName with
    | none =>
      rw [hb] at h1 h2
      cases hc : rankOf ro c.orgName with
      | none => rfl
      | some z =>
        rw [hc] at h2
        cases h2
    | some y =>
      rw [hb] at h1 h2
      cases hc : rankOf ro c.orgName with
      | none => rfl
      | some z =>
        rw [hc] at h2
        simp only [decide_eq_true_eq] at h1 h2 ⊢
        exact le_trans h1 h2

/-- A first concrete map row, ranked 0 by c7Ro. -/
def c7RowA : MapRow := ⟨str "A", PVal.num 1, none, none, none⟩

/-- A second, distinct concrete map row with the same rank 0. -/
def c7RowB : MapRow := ⟨str "B", PVal.num 2, none, none, none⟩

/-- A rank mapping giving both organisations the same rank. -/
def c7Ro : List (Str × ℚ) := [(str "A", 0), (str "B", 0)]

/-- C7's tie-stability clause is false on the code: the sort at lines
223-225 uses the default non-stable quicksort on the ranked part, whose
contract admits the outcome that swaps two equally-ranked rows, so ties
among ranked organisations need not preserve their original input order. -/
theorem C7_tie_order_cex :
    ¬ (∀ (ro : List (Str × ℚ)) (rows out : List MapRow),
        sortValuesOutcome ro rows out →
        ∀ k : Option ℚ,
          out.filter (fun m => rankOf ro m.orgName == k) =
            rows.filter (fun m => rankOf ro m.orgName == k)) := by
  intro h
  have hout : sortValuesOutcome c7Ro [c7RowA, c7RowB] [c7RowB, c7RowA] :=
    ⟨List.Perm.swap c7RowA c7RowB [], by decide, by decide⟩
  have := h c7Ro [c7RowA, c7RowB] [c7RowB, c7RowA] hout (some 0)
  exact absurd this (by decide)

/-- C7 amended: every legal outcome of the region-order sort is a
permutation of the rate-bearing rows, ascending in configured rank, with
organisations absent from the rank mapping after every ranked one and — among
themselves — in their original relative input order; the relative order of
ranked organisations sharing a rank is unspecified, and the embedding's
deterministic sort realises one legal outcome. -/
theorem C7_region_order_amended (regionOrder : List (Str × ℚ)) (rows : List MapRow) :
    sortValuesOutcome regionOrder rows (sortByRegionOrder regionOrder rows) ∧
    (∀ out, sortValuesOutcome regionOrder rows out →
      out.Perm rows ∧
      out.Pairwise (fun x y => rankLe regionOrder x y = true) ∧
      out.Pairwise (fun x y => rankOf regionOrder x.orgName = none →
        rankOf regionOrder y.orgName = none) ∧
      out.filter (fun m => (rankOf regionOrder m.orgName).isNone) =
        rows.filter (fun m => (rankOf regionOrder m.orgName).isNone)) := by
  constructor
  · refine ⟨sortL_perm _ rows,
      sortL_pairwise (rankLe regionOrder) (rankLe_total regionOrder)
        (rankLe_trans regionOrder) rows, ?_⟩
    refine filter_sortL (rankLe regionOrder) _ rows ?_
    intro a b ha hb
    simp only [Option.isNone_iff_eq_none] at ha hb
    rw [rankLe, ha, hb]
  · intro out hout
    refine ⟨hout.1, hout.2.1, ?_, hout.2.2⟩
    refine hout.2.1.imp ?_
    intro x y hxy hx
    rw [rankLe, hx] at hxy
    cases hy : rankOf regionOrder y.orgName with
    | none => rfl
    | some z =>
      rw [hy] at hxy
      cases hxy

/-- Witness for C7's amended statement on the concrete tied table. -/
theorem C7_region_order_amended_witness :
    sortValuesOutcome c7Ro [c7RowA, c7RowB] (sortByRegionOrder c7Ro [c7RowA, c7RowB]) ∧
    (sortByRegionOrder c7Ro [c7RowA, c7RowB]).Perm [c7RowA, c7RowB] := by
  obtain ⟨h1, h2⟩ := C7_region_order_amended c7Ro [c7RowA, c7RowB]
  exact ⟨h1, (h2 _ h1).1⟩

/-- The keep-variant coordinate merge only duplicates rows. -/
theorem mem_mergeLatLonKeep {m : MapRow} {rows : List MapRow} {df : List Row}
    (h : m ∈ mergeLatLonKeep rows df) : m ∈ rows := by
  simp only [mergeLatLonKeep, List.mem_flatMap] at h
  obtain ⟨m0, hm0, hmem⟩ := h
  cases hf : (latLonTriples df).filter (fun t => t.1 == m0.orgName) with
  | nil =>
    rw [hf] at hmem
    simp only [List.mem_singleton] at hmem
    rw [hmem]
    exact hm0
  | cons t ts =>
    rw [hf] at hmem
    simp only [List.mem_map] at hmem
    obtain ⟨u, _, rfl⟩ := hmem
    exact hm0

/-- The fill-variant coordinate merge rewrites coordinates only: name, rate
and percent come from an input row. -/
theorem mem_mergeLatLonFill {m : MapRow} {rows : List MapRow} {df : List Row}
    (h : m ∈ mergeLatLonFill rows df) :
    ∃ m0 ∈ rows, m.orgName = m0.orgName ∧ m.rate = m0.rate ∧ m.percent = m0.percent := by
  simp only [mergeLatLonFill, List.mem_flatMap] at h
  obtain ⟨m0, hm0, hmem⟩ := h
  cases hf : (latLonTriples df).filter (fun t => t.1 == m0.orgName) with
  | nil =>
    rw [hf] at hmem
    simp only [List.mem_singleton] at hmem
    exact ⟨m0, hm0, by rw [hmem]; exact ⟨rfl, rfl, rfl⟩⟩
  | cons t ts =>
    rw [hf] at hmem
    simp only [List.mem_map] at hmem
    obtain ⟨u, _, rfl⟩ := hmem
    exact ⟨m0, hm0, rfl, rfl, rfl⟩

/-- The property claimed by C8 for every assembled row. -/
def exactlyOnePopulated (m : MapRow) : Prop :=
  (m.rate ≠ PVal.na ∧ m.percent = none) ∨ (m.rate = PVal.na ∧ m.percent ≠ none)

instance (m : MapRow) : Decidable (exactlyOnePopulated m) := by
  unfold exactlyOnePopulated
  infer_instance

/-- The rows of a successful result, or none on error. -/
def okRowsOf (e : Except PyErr (List MapRow)) : List MapRow :=
  match e with
  | .ok rows => rows
  | .error _ => []

/-- An ordinary-path input: one organisation with numerator 10 and
denominator 100. -/
def c8Df : List Row :=
  [ mkRow "X" "C1" "NHS England (Region)" "DimA" "Num" (.num 10),
    mkRow "X" "C1" "NHS England (Region)" "DimA" "Den" (.num 100) ]

/-- C8 as stated is false: the ordinary path of return_data_for_map keeps
the Rate column and adds Percent = Rate * 100, so this concrete output row
carries both a populated Rate and a populated Percent. -/
theorem C8_both_populated_cex :
    ∃ m ∈ okRowsOf (returnDataForMap c8Df [] [] [] exMd []
      (str "DimA") (str "NHS England (Region)") (str "2023")),
      ¬ exactlyOnePopulated m := by
  decide

/-- C8 amended: after the Rate Calculator the special path populates Rate
only — the Percent column does not exist there — while the ordinary path
populates both fields, with Percent always equal to Rate × 100. -/
theorem C8_amended_rate_percent (df0 : List Row) (locs : List LocRow)
    (popSource : List (Str × List PopRow)) (specialDimensions : List Str)
    (md : MeasureDict) (regionOrder : List (Str × ℚ)) (dimension orgLevel year : Str)
    (rows : List MapRow)
    (h : returnDataForMap df0 locs popSource specialDimensions md regionOrder
      dimension orgLevel year = .ok rows) :
    ∀ m ∈ rows,
      (specialDimensions.contains dimension = true → m.percent = none) ∧
      (specialDimensions.contains dimension = false →
        m.percent = some (pvScale 100 m.rate)) := by
  intro m hm
  cases hsd : specialDimensions.contains dimension with
  | true =>
    refine ⟨fun _ => ?_, fun hfalse => by cases hfalse⟩
    simp only [returnDataForMap, hsd, if_true] at h
    cases hpop : lookupA popSource year with
    | none =>
      rw [hpop] at h
      cases h
    | some pop =>
      rw [hpop] at h
      simp only [Except.ok.injEq] at h
      subst h
      have hm1 := (sortL_perm _ _).mem_iff.mp hm
      have hm2 := mem_mergeLatLonKeep hm1
      simp only [List.mem_map] at hm2
      obtain ⟨j, _, rfl⟩ := hm2
      rfl
  | false =>
    refine ⟨(fun htrue => by cases htrue), fun _ => ?_⟩
    simp only [returnDataForMap, hsd, if_false, Bool.false_eq_true] at h
    cases hgr : getRates (filterForMeasureAndLevel
        (joinLatLon (makeValuesConsistant (mapOrgName df0)) locs) dimension orgLevel)
        dimension md orgLevel with
    | error e =>
      rw [hgr] at h
      simp only [Bind.bind, Except.bind] at h
      cases h
    | ok rr =>
      rw [hgr] at h
      simp only [Bind.bind, Except.bind, Except.ok.injEq] at h
      subst h
      have hm1 := (sortL_perm _ _).mem_iff.mp hm
      obtain ⟨m0, hm0, hname, hrate, hperc⟩ := mem_mergeLatLonFill hm1
      simp only [List.mem_map] at hm0
      obtain ⟨x, _, rfl⟩ := hm0
      rw [hperc, hrate]

/-- The assembled output row of the ordinary-path example. -/
def c8Row : MapRow :=
  ⟨str "X", pvDiv (.num 10) (.num 100),
    some (pvScale 100 (pvDiv (.num 10) (.num 100))), none, none⟩

/-- Witness for C8's amended statement on the ordinary-path example. -/
theorem C8_amended_rate_percent_witness :
    c8Row.percent = some (pvScale 100 c8Row.rate) :=
  (C8_amended_rate_percent c8Df [] [] [] exMd [] (str "DimA")
    (str "NHS England (Region)") (str "2023") [c8Row] (by decide) c8Row
    (by decide)).2 (by decide)

theorem foldl_append_map {α β : Type} (f : α → β) :
    ∀ (l : List α) (acc : List β),
      l.foldl (fun a x => a ++ [f x]) acc = acc ++ l.map f := by
  intro l
  induction l with
  | nil => intro acc; simp
  | cons x xs ih =>
    intro acc
    simp only [List.foldl_cons, List.map_cons, ih (acc ++ [f x]), List.append_assoc,
      List.singleton_append]

/-- The loading loop of return_data_for_time_series produces one year-tagged
table per configured year, in configuration-iteration order. -/
theorem tagYears_eq (dataSource : List (Str × List Row)) :
    tagYears dataSource =
      dataSource.map (fun p => p.2.map (fun r => { r with year := p.1 })) := by
  unfold tagYears
  rw [foldl_append_map]
  simp

/-- The body of return_data_for_time_series after the concatenation, with
the actual stage order made explicit: Row Filter first, then Name
Normalizer, then label reconciliation. -/
def tsBody (dataSource : List (Str × List Row)) (popSource : List (Str × List PopRow))
    (specialDimensions : List Str) (dimension orgLevel location : Str) :
    Except PyErr TSResult :=
  let combined := dataSource.flatMap (fun p => p.2.map (fun r => { r with year := p.1 }))
  let c3 := makeValuesConsistant (mapOrgName (filterForMeasureAndLevel combined
    dimension (forcedOrgLevel specialDimensions dimension orgLevel)))
  if specialDimensions.contains dimension then
    match dataSource.getLast? with
    | none => .error .emptyConcat
    | some lastPair =>
      match lookupA popSource lastPair.1 with
      | none => .error (.keyError lastPair.1)
      | some pop => .ok (.special (specialRates c3 pop))
  else
    .ok (.plain (c3.filter (fun r => r.orgName == location)))

/-- On a nonempty configuration, return_data_for_time_series is exactly the
tagged concatenation followed by filter-then-normalise. -/
theorem tsUnfold (dataSource : List (Str × List Row)) (popSource : List (Str × List PopRow))
    (specialDimensions : List Str) (dimension orgLevel location : Str)
    (hne : dataSource ≠ []) :
    returnDataForTimeSeries dataSource popSource specialDimensions dimension orgLevel
      location =
      tsBody dataSource popSource specialDimensions dimension orgLevel location := by
  cases dataSource with
  | nil => exact absurd rfl hne
  | cons d ds' =>
    simp only [returnDataForTimeSeries, tagYears_eq, List.map_cons, tsBody]
    rfl

/-- The time-series pipeline as claim C4 describes it, stated from the
spec's words for comparison with the code: identical to the code except
that the Name Normalizer and label reconciliation run BEFORE the Row
Filter. -/
def timeSeriesSpecOrder (dataSource : List (Str × List Row))
    (popSource : List (Str × List PopRow)) (specialDimensions : List Str)
    (dimension orgLevel location : Str) : Except PyErr TSResult :=
  match tagYears dataSource with
  | [] => .error .emptyConcat
  | t :: ts =>
    let combined := (t :: ts).flatten
    let c2 := makeValuesConsistant (mapOrgName combined)
    let c3 := filterForMeasureAndLevel c2 dimension
      (forcedOrgLevel specialDimensions dimension orgLevel)
    if specialDimensions.contains dimension then
      match dataSource.getLast? with
      | none => .error .emptyConcat
      | some lastPair =>
        match lookupA popSource lastPair.1 with
        | none => .error (.keyError lastPair.1)
        | some pop => .ok (.special (specialRates c3 pop))
    else
      .ok (.plain (c3.filter (fun r => r.orgName == location)))

/-- A one-year configuration whose row carries the historical dimension
label; the 2021 file spells the dimension SmokingAtBooking. -/
def c4Ds : List (Str × List Row) :=
  [ (str "2021", [mkRow "X" "C1" "Provider" "SmokingAtBooking" "M" (.num 1)]) ]

/-- C4's ordering clause is false on the code: filtering before
normalisation loses the 2021 row whose dimension label is only canonical
after make_values_consistant, so the code's result differs from the
claimed normalise-then-filter pipeline on this input. -/
theorem C4_order_cex :
    returnDataForTimeSeries c4Ds [] [] (str "SmokingStatusGroupBooking")
        (str "Provider") (str "X") ≠
      timeSeriesSpecOrder c4Ds [] [] (str "SmokingStatusGroupBooking")
        (str "Provider") (str "X") := by
  decide

/-- C4 amended: each configured year's table is tagged with its year and the
tables are concatenated in configuration-iteration order, but the
dimension/org-level Row Filter runs BEFORE the Name Normalizer and label
reconciliation; only the ordinary path's location filter sees normalised
names.  (An empty configuration raises pd.concat's error instead.) -/
theorem C4_amended_time_series (dataSource : List (Str × List Row))
    (popSource : List (Str × List PopRow)) (specialDimensions : List Str)
    (dimension orgLevel location : Str) (hne : dataSource ≠ []) :
    returnDataForTimeSeries dataSource popSource specialDimensions dimension orgLevel
      location =
      tsBody dataSource popSource specialDimensions dimension orgLevel location :=
  tsUnfold dataSource popSource specialDimensions dimension orgLevel location hne

/-- Witness for C4's amended statement on the concrete one-year input. -/
theorem C4_amended_time_series_witness :
    returnDataForTimeSeries c4Ds [] [] (str "SmokingStatusGroupBooking")
        (str "Provider") (str "X") =
      tsBody c4Ds [] [] (str "SmokingStatusGroupBooking") (str "Provider") (str "X") :=
  C4_amended_time_series c4Ds [] [] (str "SmokingStatusGroupBooking") (str "Provider")
    (str "X") (by decide)

/-- C10: on a multi-year special-dimension request the population totals for
every row come from one single year's population source — the last
configured year (the loop variable left over at line 306): the result
depends on pop_source only through its entry for the last data_source key,
and equals the population join of the whole multi-year table against that
one year's table. -/
theorem C10_last_year_population (dataSource : List (Str × List Row))
    (popSource popSource' : List (Str × List PopRow)) (specialDimensions : List Str)
    (dimension orgLevel location : Str)
    (hlast : ∀ pr, dataSource.getLast? = some pr →
      lookupA popSource pr.1 = lookupA popSource' pr.1) :
    returnDataForTimeSeries dataSource popSource specialDimensions dimension orgLevel
        location =
      returnDataForTimeSeries dataSource popSource' specialDimensions dimension orgLevel
        location ∧
    (∀ y t pop, specialDimensions.contains dimension = true →
      dataSource.getLast? = some (y, t) → lookupA popSource y = some pop →
      returnDataForTimeSeries dataSource popSource specialDimensions dimension orgLevel
          location =
        .ok (.special (specialRates (makeValuesConsistant (mapOrgName
          (filterForMeasureAndLevel
            (dataSource.flatMap (fun p => p.2.map (fun r => { r with year := p.1 })))
            dimension (forcedOrgLevel specialDimensions dimension orgLevel)))) pop))) := by
  cases hds : dataSource with
  | nil => exact ⟨rfl, fun y t pop _ hgl => by cases hgl⟩
  | cons d ds' =>
    rw [← hds]
    have hne : dataSource ≠ [] := by rw [hds]; exact List.cons_ne_nil d ds'
    rw [tsUnfold dataSource popSource specialDimensions dimension orgLevel location hne,
      tsUnfold dataSource popSource' specialDimensions dimension orgLevel location hne]
    constructor
    · unfold tsBody
      cases hsd : specialDimensions.contains dimension with
      | false => simp [hsd]
      | true =>
        simp only [hsd, if_true]
        cases hgl : dataSource.getLast? with
        | none => rfl
        | some pr =>
          dsimp only
          rw [hlast pr hgl]
    · intro y t pop hsd hgl hpop
      unfold tsBody
      simp only [hsd, if_true, hgl, hpop]

/-- The 2021 statistics row of the two-year example. -/
def c10Row2021 : Row := mkRow "London" "RY1" "NHS England (Region)" "TotalBabies" "M" (.num 100)

/-- The 2022 statistics row of the two-year example. -/
def c10Row2022 : Row := mkRow "London" "RY1" "NHS England (Region)" "TotalBabies" "M" (.num 200)

/-- A two-year data source. -/
def c10Ds : List (Str × List Row) :=
  [ (str "2021", [c10Row2021]), (str "2022", [c10Row2022]) ]

/-- The population table of the last configured year. -/
def c10Pop2022 : List PopRow := [⟨str "London", str "E12000007", 50000⟩]

/-- A population source for both years. -/
def c10Ps : List (Str × List PopRow) :=
  [ (str "2021", [⟨str "London", str "E12000007", 1000⟩]), (str "2022", c10Pop2022) ]

/-- The same population source with a completely different 2021 table. -/
def c10PsAlt : List (Str × List PopRow) :=
  [ (str "2021", [⟨str "London", str "E12000007", 5⟩]), (str "2022", c10Pop2022) ]

/-- Witness for C10: changing the 2021 population table does not change the
two-year result, which is the join of both years' rows against the 2022
population table alone. -/
theorem C10_last_year_population_witness :
    returnDataForTimeSeries c10Ds c10Ps [str "TotalBabies"] (str "TotalBabies")
        (str "NHS England (Region)") (str "London") =
      returnDataForTimeSeries c10Ds c10PsAlt [str "TotalBabies"] (str "TotalBabies")
        (str "NHS England (Region)") (str "London") ∧
    returnDataForTimeSeries c10Ds c10Ps [str "TotalBabies"] (str "TotalBabies")
        (str "NHS England (Region)") (str "London") =
      .ok (.special (specialRates (makeValuesConsistant (mapOrgName
        (filterForMeasureAndLevel
          (c10Ds.flatMap (fun p => p.2.map (fun r => { r with year := p.1 })))
          (str "TotalBabies")
          (forcedOrgLevel [str "TotalBabies"] (str "TotalBabies")
            (str "NHS England (Region)")))))
        c10Pop2022)) := by
  have hl : ∀ pr, c10Ds.getLast? = some pr →
      lookupA c10Ps pr.1 = lookupA c10PsAlt pr.1 := by
    intro pr hpr
    have hgl : c10Ds.getLast? = some (str "2022", [c10Row2022]) := by decide
    rw [hgl] at hpr
    cases hpr
    decide
  obtain ⟨h1, h2⟩ := C10_last_year_population c10Ds c10Ps c10PsAlt [str "TotalBabies"]
    (str "TotalBabies") (str "NHS England (Region)") (str "London") hl
  exact ⟨h1, h2 (str "2022") [c10Row2022] c10Pop2022 (by decide) (by decide) (by decide)⟩

/-- A string made only of uppercase letters and spaces, like every synonym
key. -/
def AllCapsP (l : Str) : Prop := ∀ c ∈ l, caps c = true

/-- Whether a string contains three consecutive caps characters.  Every
replacement value of the synonym dictionary is free of such runs, while
every key is longer than two characters — the combinatorial heart of the
idempotence proof. -/
def capsRun3 : Str → Bool
  | c₁ :: c₂ :: c₃ :: t => (caps c₁ && caps c₂ && caps c₃) || capsRun3 (c₂ :: c₃ :: t)
  | _ => false

theorem capsRun3_tail (c : Char) (rest : Str) (h : capsRun3 (c :: rest) = false) :
    capsRun3 rest = false := by
  match rest with
  | [] => rfl
  | [x] => rfl
  | x :: y :: t =>
    simp only [capsRun3, Bool.or_eq_false_iff] at h
    exact h.2

/-- A prefix of an append lands in the left part or contains all of it. -/
theorem prefSplit {α : Type} {q l l' : List α} (h : q <+: l ++ l') :
    q <+: l ∨ ∃ y, q = l ++ y ∧ y <+: l' := by
  induction l generalizing q with
  | nil => exact .inr ⟨q, rfl, h⟩
  | cons c ls ih =>
    cases q with
    | nil => exact .inl (List.nil_prefix)
    | cons q₀ q₂ =>
      rw [List.cons_append] at h
      rcases List.cons_prefix_cons.mp h with ⟨rfl, h₂⟩
      rcases ih h₂ with h1 | ⟨y, rfl, hy⟩
      · exact .inl (List.cons_prefix_cons.mpr ⟨rfl, h1⟩)
      · exact .inr ⟨y, by rw [List.cons_append], hy⟩

/-- An infix of an append is an infix of a part or spans the junction with a
nonempty suffix of the left part and a nonempty prefix of the right part. -/
theorem infSplit {α : Type} {q l l' : List α} (h : q <:+: l ++ l') :
    q <:+: l ∨ q <:+: l' ∨
      ∃ x y, x ≠ [] ∧ y ≠ [] ∧ q = x ++ y ∧ x <:+ l ∧ y <+: l' := by
  induction l generalizing q with
  | nil => exact .inr (.inl h)
  | cons c ls ih =>
    rw [List.cons_append] at h
    rcases List.infix_cons_iff.mp h with hpre | hinf
    · cases q with
      | nil => exact .inl (List.nil_infix)
      | cons q₀ q₂ =>
        rcases List.cons_prefix_cons.mp hpre with ⟨rfl, h₂⟩
        rcases prefSplit h₂ with h1 | ⟨y, rfl, hy⟩
        · exact .inl (List.cons_prefix_cons.mpr ⟨rfl, h1⟩).isInfix
        · cases y with
          | nil =>
            refine .inl ?_
            rw [List.append_nil]
          | cons y₀ ys =>
            refine .inr (.inr ⟨q₀ :: ls, y₀ :: ys, List.cons_ne_nil q₀ ls,
              List.cons_ne_nil y₀ ys, by rw [List.cons_append], List.suffix_rfl, hy⟩)
    · rcases ih hinf with h1 | h2 | ⟨x, y, hx, hy, hq, hxs, hyp⟩
      · exact .inl (List.infix_cons h1)
      · exact .inr (.inl h2)
      · exact .inr (.inr ⟨x, y, hx, hy, hq, hxs.trans (List.suffix_cons c ls), hyp⟩)

/-- A replacement value ending in a lowercase letter has no nonempty
all-caps suffix. -/
theorem noCapsSuffix (r : Str) (z : Char) (hz : r.getLast? = some z)
    (hcz : caps z = false) :
    ∀ x, x <:+ r → x ≠ [] → AllCapsP x → False := by
  intro x hx hne hcaps
  have hr : r ≠ [] := by
    rintro rfl
    cases hz
  have h1 : x.getLast hne = r.getLast hr := List.IsSuffix.getLast hx hne
  have h2 : caps (x.getLast hne) = true := hcaps _ (List.getLast_mem hne)
  have h3 : r.getLast hr = z := by
    rw [List.getLast?_eq_getLast r hr] at hz
    exact Option.some_injective _ hz
  rw [h1, h3, hcz] at h2
  cases h2

/-- A string without three consecutive caps characters has no all-caps
infix longer than two characters. -/
theorem capsRun3_bound :
    ∀ r : Str, capsRun3 r = false → ∀ x, x <:+: r → AllCapsP x → x.length ≤ 2 := by
  intro r
  induction r with
  | nil =>
    intro _ x hx _
    rw [List.infix_nil.mp hx]
    decide
  | cons c r' ih =>
    intro hfalse x hx hcaps
    rcases List.infix_cons_iff.mp hx with hpre | hinf
    · match x, hpre, hcaps with
      | [], _, _ => simp
      | [x₁], _, _ => simp
      | [x₁, x₂], _, _ => simp
      | x₁ :: x₂ :: x₃ :: xs, hpre, hcaps =>
        exfalso
        rcases List.cons_prefix_cons.mp hpre with ⟨rfl, h₂⟩
        match r', h₂ with
        | w₂ :: w', h₂ =>
          rcases List.cons_prefix_cons.mp h₂ with ⟨rfl, h₃⟩
          match w', h₃ with
          | w₃ :: w'', h₃ =>
            rcases List.cons_prefix_cons.mp h₃ with ⟨rfl, _⟩
            have hc1 : caps x₁ = true := hcaps x₁ (by simp)
            have hc2 : caps x₂ = true := hcaps x₂ (by simp)
            have hc3 : caps x₃ = true := hcaps x₃ (by simp)
            have htrue : capsRun3 (x₁ :: x₂ :: x₃ :: w'') = true := by
              simp [capsRun3, hc1, hc2, hc3]
            cases htrue.symm.trans hfalse
    · exact ih (capsRun3_tail c r' hfalse) x hinf hcaps

/-- Prefix tracking through one replacement pass: an all-caps prefix of the
output either already prefixed the input, or ends exactly at the leading
capital of an inserted replacement — in which case the text before it,
followed by the pattern, prefixed the input. -/
theorem prefTrack (p : Str) (a bch : Char) (rt : Str) (hb : caps bch = false) :
    ∀ n s, s.length ≤ n → ∀ q, AllCapsP q → q ≠ [] →
      q <+: replaceAll p (a :: bch :: rt) s →
      q <+: s ∨ ∃ q', q = q' ++ [a] ∧ (q' ++ p) <+: s := by
  intro n
  induction n with
  | zero =>
    intro s hs q _ hne hpre
    cases s with
    | nil =>
      rw [replaceAll_nil] at hpre
      exact absurd (List.prefix_nil.mp hpre) hne
    | cons c cs => simp at hs
  | succ n ih =>
    intro s hs q hcaps hne hpre
    cases s with
    | nil =>
      rw [replaceAll_nil] at hpre
      exact absurd (List.prefix_nil.mp hpre) hne
    | cons c cs =>
      rw [replaceAll_cons] at hpre
      simp only [List.length_cons, Nat.succ_le_succ_iff] at hs
      by_cases hp : p ≠ [] ∧ p.isPrefixOf (c :: cs)
      · rw [if_pos hp] at hpre
        rcases prefSplit hpre with h1 | ⟨y, hqy, hy⟩
        · cases q with
          | nil => exact absurd rfl hne
          | cons q₀ q₂ =>
            obtain ⟨hq0, h2⟩ := List.cons_prefix_cons.mp h1
            cases q₂ with
            | nil =>
              refine .inr ⟨[], by rw [hq0, List.nil_append], ?_⟩
              rw [List.nil_append]
              exact List.isPrefixOf_iff_prefix.mp hp.2
            | cons q₁ q₂' =>
              obtain ⟨hq1, -⟩ := List.cons_prefix_cons.mp h2
              have hcq : caps q₁ = true := hcaps q₁ (by simp)
              rw [hq1, hb] at hcq
              cases hcq
        · have hcb : caps bch = true := hcaps bch (by rw [hqy]; simp)
          rw [hb] at hcb
          cases hcb
      · rw [if_neg hp] at hpre
        cases q with
        | nil => exact absurd rfl hne
        | cons q₀ q₂ =>
          obtain ⟨hq0, hq₂⟩ := List.cons_prefix_cons.mp hpre
          cases q₂ with
          | nil =>
            refine .inl ?_
            rw [hq0]
            exact List.cons_prefix_cons.mpr ⟨rfl, List.nil_prefix⟩
          | cons e q₂' =>
            rcases ih cs hs (e :: q₂') (fun x hx => hcaps x (List.mem_cons_of_mem _ hx))
                (List.cons_ne_nil e q₂') hq₂ with h1 | ⟨q', hq', hqp⟩
            · refine .inl ?_
              rw [hq0]
              exact List.cons_prefix_cons.mpr ⟨rfl, h1⟩
            · refine .inr ⟨c :: q', by rw [hq0, hq', List.cons_append], ?_⟩
              rw [List.cons_append]
              exact List.cons_prefix_cons.mpr ⟨rfl, hqp⟩

/-- Infix tracking through one replacement pass: an all-caps infix of length
at least three of the output either already occurred in the input, or ends
exactly at the leading capital of an inserted replacement — in which case
the text before it, followed by the pattern, occurred in the input. -/
theorem infTrack (p : Str) (a bch : Char) (rt : Str) (hb : caps bch = false)
    (hsuf : ∀ x, x <:+ (a :: bch :: rt) → x ≠ [] → AllCapsP x → False)
    (hrun : capsRun3 (a :: bch :: rt) = false) :
    ∀ n s, s.length ≤ n → ∀ q, AllCapsP q → 3 ≤ q.length →
      q <:+: replaceAll p (a :: bch :: rt) s →
      q <:+: s ∨ ∃ q', q = q' ++ [a] ∧ (q' ++ p) <:+: s := by
  intro n
  induction n with
  | zero =>
    intro s hs q _ hlen hinf
    cases s with
    | nil =>
      rw [replaceAll_nil] at hinf
      rw [List.infix_nil.mp hinf] at hlen
      simp at hlen
    | cons c cs => simp at hs
  | succ n ih =>
    intro s hs q hcaps hlen hinf
    cases s with
    | nil =>
      rw [replaceAll_nil] at hinf
      rw [List.infix_nil.mp hinf] at hlen
      simp at hlen
    | cons c cs =>
      rw [replaceAll_cons] at hinf
      simp only [List.length_cons, Nat.succ_le_succ_iff] at hs
      by_cases hp : p ≠ [] ∧ p.isPrefixOf (c :: cs)
      · rw [if_pos hp] at hinf
        have hsub : cs.drop (p.length - 1) <:+ c :: cs :=
          (List.drop_suffix _ _).trans (List.suffix_cons c cs)
        rcases infSplit hinf with h1 | h2 | ⟨x, y, hx, _, hq, hxs, _⟩
        · have := capsRun3_bound _ hrun q h1 hcaps
          omega
        · have hd : (cs.drop (p.length - 1)).length ≤ n := by
            refine le_trans ?_ hs
            simp only [List.length_drop]
            omega
          rcases ih _ hd q hcaps hlen h2 with h3 | ⟨q', hq', hqp⟩
          · exact .inl (h3.trans hsub.isInfix)
          · exact .inr ⟨q', hq', hqp.trans hsub.isInfix⟩
        · exfalso
          refine hsuf x hxs hx ?_
          intro ch hch
          refine hcaps ch ?_
          rw [hq]
          exact List.mem_append_left y hch
      · rw [if_neg hp] at hinf
        rcases List.infix_cons_iff.mp hinf with hpre | hinf2
        · cases q with
          | nil => simp at hlen
          | cons q₀ q₂ =>
            obtain ⟨hq0, hq₂⟩ := List.cons_prefix_cons.mp hpre
            have hq₂ne : q₂ ≠ [] := by
              intro h
              rw [h] at hlen
              simp at hlen
            rcases prefTrack p a bch rt hb n cs hs q₂
                (fun ch hch => hcaps ch (List.mem_cons_of_mem _ hch)) hq₂ne hq₂ with
              h1 | ⟨q', hq', hqp⟩
            · refine .inl ?_
              rw [hq0]
              exact (List.cons_prefix_cons.mpr ⟨rfl, h1⟩).isInfix
            · refine .inr ⟨q₀ :: q', by rw [hq', List.cons_append], ?_⟩
              rw [hq0, List.cons_append]
              exact (List.cons_prefix_cons.mpr ⟨rfl, hqp⟩).isInfix
        · rcases ih cs hs q hcaps hlen hinf2 with h1 | ⟨q', hq', hqp⟩
          · exact .inl (List.infix_cons h1)
          · exact .inr ⟨q', hq', List.infix_cons hqp⟩

/-- A single replacement pass leaves no occurrence of its own pattern, for
the pattern/replacement shapes of the synonym dictionary: either the
pattern's last character differs from the replacement's leading capital, or
the pattern begins and ends with the same character, so that a would-be
junction occurrence is always consumed by the leftmost-first scan. -/
theorem noSelfOcc (p : Str) (a bch : Char) (rt : Str) (hb : caps bch = false)
    (hsuf : ∀ x, x <:+ (a :: bch :: rt) → x ≠ [] → AllCapsP x → False)
    (hrun : capsRun3 (a :: bch :: rt) = false)
    (hpCaps : AllCapsP p) (hpLen : 3 ≤ p.length)
    (hD : p.getLast? ≠ some a ∨ p.head? = p.getLast?) :
    ∀ n s, s.length ≤ n → ¬ p <:+: replaceAll p (a :: bch :: rt) s := by
  intro n
  induction n with
  | zero =>
    intro s hs hinf
    cases s with
    | nil =>
      rw [replaceAll_nil] at hinf
      rw [List.infix_nil.mp hinf] at hpLen
      simp at hpLen
    | cons c cs => simp at hs
  | succ n ih =>
    intro s hs hinf
    cases s with
    | nil =>
      rw [replaceAll_nil] at hinf
      rw [List.infix_nil.mp hinf] at hpLen
      simp at hpLen
    | cons c cs =>
      rw [replaceAll_cons] at hinf
      simp only [List.length_cons, Nat.succ_le_succ_iff] at hs
      have hpne : p ≠ [] := by
        intro h
        rw [h] at hpLen
        simp at hpLen
      by_cases hp : p ≠ [] ∧ p.isPrefixOf (c :: cs)
      · rw [if_pos hp] at hinf
        rcases infSplit hinf with h1 | h2 | ⟨x, y, hx, _, hq, hxs, _⟩
        · have := capsRun3_bound _ hrun p h1 hpCaps
          omega
        · have hd : (cs.drop (p.length - 1)).length ≤ n := by
            refine le_trans ?_ hs
            simp only [List.length_drop]
            omega
          exact ih _ hd h2
        · refine hsuf x hxs hx ?_
          intro ch hch
          refine hpCaps ch ?_
          rw [hq]
          exact List.mem_append_left y hch
      · rw [if_neg hp] at hinf
        rcases List.infix_cons_iff.mp hinf with hpre | hinf2
        · obtain ⟨p₀, p₂, hpp⟩ : ∃ p₀ p₂, p = p₀ :: p₂ := by
            cases p with
            | nil => exact absurd rfl hpne
            | cons u v => exact ⟨u, v, rfl⟩
          rw [hpp] at hpre
          obtain ⟨hp0, hp₂⟩ := List.cons_prefix_cons.mp hpre
          rw [← hpp] at hp₂
          have hp₂caps : AllCapsP p₂ := fun ch hch => hpCaps ch (by
            rw [hpp]
            exact List.mem_cons_of_mem _ hch)
          have hp₂ne : p₂ ≠ [] := by
            intro h
            rw [hpp, h] at hpLen
            simp at hpLen
          rcases prefTrack p a bch rt hb n cs hs p₂ hp₂caps hp₂ne hp₂ with
            h1 | ⟨q', hq', hqp⟩
          · apply hp
            refine ⟨hpne, List.isPrefixOf_iff_prefix.mpr ?_⟩
            rw [hpp, hp0]
            exact List.cons_prefix_cons.mpr ⟨rfl, h1⟩
          · have hplast : p.getLast? = some a := by
              rw [hpp, hq',
                show p₀ :: (q' ++ [a]) = (p₀ :: q') ++ [a] from by rw [List.cons_append]]
              exact List.getLast?_concat _
            have hph : p.head? = some p₀ := by
              rw [hpp]
              rfl
            have hhead : p₀ = a := by
              rcases hD with hD1 | hD2
              · exact absurd hplast hD1
              · exact Option.some_injective _ (hph.symm.trans (hD2.trans hplast))
            obtain ⟨t, ht⟩ := hqp
            apply hp
            refine ⟨hpne, List.isPrefixOf_iff_prefix.mpr ?_⟩
            rw [← ht]
            have hpeq : p = (c :: q') ++ [a] := by
              rw [hpp, hq', hp0, List.cons_append]
            rw [show c :: (q' ++ p ++ t) = (c :: q') ++ (p ++ t) from by
              rw [List.append_assoc, List.cons_append]]
            rw [hpeq, List.prefix_append_right_inj]
            exact List.cons_prefix_cons.mpr ⟨hhead.symm.trans hp0, List.nil_prefix⟩
        · exact ih cs hs hinf2

/-- One replacement pass cannot create an occurrence of a pattern pi that
was absent, provided pi's last character differs from the replacement's
leading capital, or the pass's own pattern begins with that capital (so the
junction occurrence embeds an occurrence already present in the input). -/
theorem noOccPreserved (pi p : Str) (a bch : Char) (rt : Str) (hb : caps bch = false)
    (hsuf : ∀ x, x <:+ (a :: bch :: rt) → x ≠ [] → AllCapsP x → False)
    (hrun : capsRun3 (a :: bch :: rt) = false)
    (hiCaps : AllCapsP pi) (hiLen : 3 ≤ pi.length)
    (hD : pi.getLast? ≠ some a ∨ p.head? = some a)
    (s : Str) (hno : ¬ pi <:+: s) : ¬ pi <:+: replaceAll p (a :: bch :: rt) s := by
  intro hinf
  rcases infTrack p a bch rt hb hsuf hrun s.length s le_rfl pi hiCaps hiLen hinf with
    h1 | ⟨q', hq', hqp⟩
  · exact hno h1
  · rcases hD with hD1 | hD2
    · apply hD1
      rw [hq']
      exact List.getLast?_concat _
    · obtain ⟨p₀, pt, hp⟩ : ∃ p₀ pt, p = p₀ :: pt := by
        cases p with
        | nil => cases hD2
        | cons u v => exact ⟨u, v, rfl⟩
      have hp0 : p₀ = a := Option.some_injective _ (by rw [hp] at hD2; exact hD2)
      apply hno
      have hpre : pi <+: q' ++ p := by
        rw [hq', List.prefix_append_right_inj, hp]
        exact List.cons_prefix_cons.mpr ⟨hp0.symm, List.nil_prefix⟩
      exact hpre.isInfix.trans hqp


instance (l : Str) : Decidable (AllCapsP l) :=
  decidable_of_iff (∀ c ∈ l, caps c = true) Iff.rfl

/-- map_org_name written as the eight explicit passes. -/
theorem mapNameStr_eq (s : Str) :
    mapNameStr s = replaceAll p8 r8 (replaceAll p7 r7 (replaceAll p6 r6 (replaceAll p5 r5
      (replaceAll p4 r4 (replaceAll p3 r3 (replaceAll p2 r2 (replaceAll p1 r1 s))))))) := by
  simp only [mapNameStr, nameDict, List.foldl_cons, List.foldl_nil]

/-- Pass 1 of map_org_name never leaves an occurrence of its own key. -/
theorem passSelf1 (s : Str) : ¬ p1 <:+: replaceAll p1 r1 s := by
  rw [show r1 = 'L' :: 'o' :: str "ndon" from rfl]
  exact noSelfOcc p1 'L' 'o' (str "ndon") (by decide)
    (noCapsSuffix _ 'n' (by decide) (by decide)) (by decide)
    (by decide) (by decide) (by decide) s.length s le_rfl

/-- Pass 1 of map_org_name cannot create an occurrence of an absent
all-caps pattern. -/
theorem passPres1 (pi : Str) (hiCaps : AllCapsP pi) (hiLen : 3 ≤ pi.length)
    (s : Str) (hno : ¬ pi <:+: s) : ¬ pi <:+: replaceAll p1 r1 s := by
  rw [show r1 = 'L' :: 'o' :: str "ndon" from rfl]
  exact noOccPreserved pi p1 'L' 'o' (str "ndon") (by decide)
    (noCapsSuffix _ 'n' (by decide) (by decide)) (by decide) hiCaps hiLen
    (Or.inr (by decide)) s hno

/-- Pass 2 of map_org_name never leaves an occurrence of its own key. -/
theorem passSelf2 (s : Str) : ¬ p2 <:+: replaceAll p2 r2 s := by
  rw [show r2 = 'S' :: 'o' :: str "uth West" from rfl]
  exact noSelfOcc p2 'S' 'o' (str "uth West") (by decide)
    (noCapsSuffix _ 't' (by decide) (by decide)) (by decide)
    (by decide) (by decide) (by decide) s.length s le_rfl

/-- Pass 2 of map_org_name cannot create an occurrence of an absent
all-caps pattern. -/
theorem passPres2 (pi : Str) (hiCaps : AllCapsP pi) (hiLen : 3 ≤ pi.length)
    (s : Str) (hno : ¬ pi <:+: s) : ¬ pi <:+: replaceAll p2 r2 s := by
  rw [show r2 = 'S' :: 'o' :: str "uth West" from rfl]
  exact noOccPreserved pi p2 'S' 'o' (str "uth West") (by decide)
    (noCapsSuffix _ 't' (by decide) (by decide)) (by decide) hiCaps hiLen
    (Or.inr (by decide)) s hno

/-- Pass 3 of map_org_name never leaves an occurrence of its own key. -/
theorem passSelf3 (s : Str) : ¬ p3 <:+: replaceAll p3 r3 s := by
  rw [show r3 = 'S' :: 'o' :: str "uth East" from rfl]
  exact noSelfOcc p3 'S' 'o' (str "uth East") (by decide)
    (noCapsSuffix _ 't' (by decide) (by decide)) (by decide)
    (by decide) (by decide) (by decide) s.length s le_rfl

/-- Pass 3 of map_org_name cannot create an occurrence of an absent
all-caps pattern. -/
theorem passPres3 (pi : Str) (hiCaps : AllCapsP pi) (hiLen : 3 ≤ pi.length)
    (s : Str) (hno : ¬ pi <:+: s) : ¬ pi <:+: replaceAll p3 r3 s := by
  rw [show r3 = 'S' :: 'o' :: str "uth East" from rfl]
  exact noOccPreserved pi p3 'S' 'o' (str "uth East") (by decide)
    (noCapsSuffix _ 't' (by decide) (by decide)) (by decide) hiCaps hiLen
    (Or.inr (by decide)) s hno

/-- Pass 4 of map_org_name never leaves an occurrence of its own key. -/
theorem passSelf4 (s : Str) : ¬ p4 <:+: replaceAll p4 r4 s := by
  rw [show r4 = 'M' :: 'i' :: str "dlands" from rfl]
  exact noSelfOcc p4 'M' 'i' (str "dlands") (by decide)
    (noCapsSuffix _ 's' (by decide) (by decide)) (by decide)
    (by decide) (by decide) (by decide) s.length s le_rfl

/-- Pass 4 of map_org_name cannot create an occurrence of an absent
all-caps pattern. -/
theorem passPres4 (pi : Str) (hiCaps : AllCapsP pi) (hiLen : 3 ≤ pi.length)
    (s : Str) (hno : ¬ pi <:+: s) : ¬ pi <:+: replaceAll p4 r4 s := by
  rw [show r4 = 'M' :: 'i' :: str "dlands" from rfl]
  exact noOccPreserved pi p4 'M' 'i' (str "dlands") (by decide)
    (noCapsSuffix _ 's' (by decide) (by decide)) (by decide) hiCaps hiLen
    (Or.inr (by decide)) s hno

/-- Pass 5 of map_org_name never leaves an occurrence of its own key. -/
theorem passSelf5 (s : Str) : ¬ p5 <:+: replaceAll p5 r5 s := by
  rw [show r5 = 'E' :: 'a' :: str "st of England" from rfl]
  exact noSelfOcc p5 'E' 'a' (str "st of England") (by decide)
    (noCapsSuffix _ 'd' (by decide) (by decide)) (by decide)
    (by decide) (by decide) (by decide) s.length s le_rfl

/-- Pass 5 of map_org_name cannot create an occurrence of an absent
all-caps pattern. -/
theorem passPres5 (pi : Str) (hiCaps : AllCapsP pi) (hiLen : 3 ≤ pi.length)
    (s : Str) (hno : ¬ pi <:+: s) : ¬ pi <:+: replaceAll p5 r5 s := by
  rw [show r5 = 'E' :: 'a' :: str "st of England" from rfl]
  exact noOccPreserved pi p5 'E' 'a' (str "st of England") (by decide)
    (noCapsSuffix _ 'd' (by decide) (by decide)) (by decide) hiCaps hiLen
    (Or.inr (by decide)) s hno

/-- Pass 6 of map_org_name never leaves an occurrence of its own key. -/
theorem passSelf6 (s : Str) : ¬ p6 <:+: replaceAll p6 r6 s := by
  rw [show r6 = 'N' :: 'o' :: str "rth West" from rfl]
  exact noSelfOcc p6 'N' 'o' (str "rth West") (by decide)
    (noCapsSuffix _ 't' (by decide) (by decide)) (by decide)
    (by decide) (by decide) (by decide) s.length s le_rfl

/-- Pass 6 of map_org_name cannot create an occurrence of an absent
all-caps pattern. -/
theorem passPres6 (pi : Str) (hiCaps : AllCapsP pi) (hiLen : 3 ≤ pi.length)
    (s : Str) (hno : ¬ pi <:+: s) : ¬ pi <:+: replaceAll p6 r6 s := by
  rw [show r6 = 'N' :: 'o' :: str "rth West" from rfl]
  exact noOccPreserved pi p6 'N' 'o' (str "rth West") (by decide)
    (noCapsSuffix _ 't' (by decide) (by decide)) (by decide) hiCaps hiLen
    (Or.inr (by decide)) s hno

/-- Pass 7 of map_org_name never leaves an occurrence of its own key. -/
theorem passSelf7 (s : Str) : ¬ p7 <:+: replaceAll p7 r7 s := by
  rw [show r7 = 'N' :: 'o' :: str "rth East and Yorkshire" from rfl]
  exact noSelfOcc p7 'N' 'o' (str "rth East and Yorkshire") (by decide)
    (noCapsSuffix _ 'e' (by decide) (by decide)) (by decide)
    (by decide) (by decide) (by decide) s.length s le_rfl

/-- Pass 7 of map_org_name cannot create an occurrence of an absent
all-caps pattern. -/
theorem passPres7 (pi : Str) (hiCaps : AllCapsP pi) (hiLen : 3 ≤ pi.length)
    (s : Str) (hno : ¬ pi <:+: s) : ¬ pi <:+: replaceAll p7 r7 s := by
  rw [show r7 = 'N' :: 'o' :: str "rth East and Yorkshire" from rfl]
  exact noOccPreserved pi p7 'N' 'o' (str "rth East and Yorkshire") (by decide)
    (noCapsSuffix _ 'e' (by decide) (by decide)) (by decide) hiCaps hiLen
    (Or.inr (by decide)) s hno

/-- Pass 8 of map_org_name never leaves an occurrence of its own key. -/
theorem passSelf8 (s : Str) : ¬ p8 <:+: replaceAll p8 r8 s := by
  rw [show r8 = 'A' :: 'l' :: str "l Submitters" from rfl]
  exact noSelfOcc p8 'A' 'l' (str "l Submitters") (by decide)
    (noCapsSuffix _ 's' (by decide) (by decide)) (by decide)
    (by decide) (by decide) (by decide) s.length s le_rfl

/-- Pass 8 of map_org_name cannot create an occurrence of an absent
all-caps pattern. -/
theorem passPres8 (pi : Str) (hiCaps : AllCapsP pi) (hiLen : 3 ≤ pi.length)
    (s : Str) (hno : ¬ pi <:+: s) : ¬ pi <:+: replaceAll p8 r8 s := by
  rw [show r8 = 'A' :: 'l' :: str "l Submitters" from rfl]
  exact noOccPreserved pi p8 'A' 'l' (str "l Submitters") (by decide)
    (noCapsSuffix _ 's' (by decide) (by decide)) (by decide) hiCaps hiLen
    (Or.inr (by decide)) s hno

/-- After a full application of map_org_name, key 1 no longer occurs. -/
theorem mapNameStr_noOcc1 (s : Str) : ¬ p1 <:+: mapNameStr s := by
  rw [mapNameStr_eq]
  exact (passPres8 p1 (by decide) (by decide) _ (passPres7 p1 (by decide) (by decide) _ (passPres6 p1 (by decide) (by decide) _ (passPres5 p1 (by decide) (by decide) _ (passPres4 p1 (by decide) (by decide) _ (passPres3 p1 (by decide) (by decide) _ (passPres2 p1 (by decide) (by decide) _ (passSelf1 _))))))))

/-- After a full application of map_org_name, key 2 no longer occurs. -/
theorem mapNameStr_noOcc2 (s : Str) : ¬ p2 <:+: mapNameStr s := by
  rw [mapNameStr_eq]
  exact (passPres8 p2 (by decide) (by decide) _ (passPres7 p2 (by decide) (by decide) _ (passPres6 p2 (by decide) (by decide) _ (passPres5 p2 (by decide) (by decide) _ (passPres4 p2 (by decide) (by decide) _ (passPres3 p2 (by decide) (by decide) _ (passSelf2 _)))))))

/-- After a full application of map_org_name, key 3 no longer occurs. -/
theorem mapNameStr_noOcc3 (s : Str) : ¬ p3 <:+: mapNameStr s := by
  rw [mapNameStr_eq]
  exact (passPres8 p3 (by decide) (by decide) _ (passPres7 p3 (by decide) (by decide) _ (passPres6 p3 (by decide) (by decide) _ (passPres5 p3 (by decide) (by decide) _ (passPres4 p3 (by decide) (by decide) _ (passSelf3 _))))))

/-- After a full application of map_org_name, key 4 no longer occurs. -/
theorem mapNameStr_noOcc4 (s : Str) : ¬ p4 <:+: mapNameStr s := by
  rw [mapNameStr_eq]
  exact (passPres8 p4 (by decide) (by decide) _ (passPres7 p4 (by decide) (by decide) _ (passPres6 p4 (by decide) (by decide) _ (passPres5 p4 (by decide) (by decide) _ (passSelf4 _)))))

/-- After a full application of map_org_name, key 5 no longer occurs. -/
theorem mapNameStr_noOcc5 (s : Str) : ¬ p5 <:+: mapNameStr s := by
  rw [mapNameStr_eq]
  exact (passPres8 p5 (by decide) (by decide) _ (passPres7 p5 (by decide) (by decide) _ (passPres6 p5 (by decide) (by decide) _ (passSelf5 _))))

/-- After a full application of map_org_name, key 6 no longer occurs. -/
theorem mapNameStr_noOcc6 (s : Str) : ¬ p6 <:+: mapNameStr s := by
  rw [mapNameStr_eq]
  exact (passPres8 p6 (by decide) (by decide) _ (passPres7 p6 (by decide) (by decide) _ (passSelf6 _)))

/-- After a full application of map_org_name, key 7 no longer occurs. -/
theorem mapNameStr_noOcc7 (s : Str) : ¬ p7 <:+: mapNameStr s := by
  rw [mapNameStr_eq]
  exact (passPres8 p7 (by decide) (by decide) _ (passSelf7 _))

/-- After a full application of map_org_name, key 8 no longer occurs. -/
theorem mapNameStr_noOcc8 (s : Str) : ¬ p8 <:+: mapNameStr s := by
  rw [mapNameStr_eq]
  exact (passSelf8 _)

/-- The string action of map_org_name is idempotent: its output contains no
synonym key, so a second application changes nothing. -/
theorem mapNameStr_idem (s : Str) : mapNameStr (mapNameStr s) = mapNameStr s := by
  have e1 : replaceAll p1 r1 (mapNameStr s) = mapNameStr s :=
    replaceAll_of_no_occurrence p1 r1 _ (mapNameStr_noOcc1 s)
  have e2 : replaceAll p2 r2 (mapNameStr s) = mapNameStr s :=
    replaceAll_of_no_occurrence p2 r2 _ (mapNameStr_noOcc2 s)
  have e3 : replaceAll p3 r3 (mapNameStr s) = mapNameStr s :=
    replaceAll_of_no_occurrence p3 r3 _ (mapNameStr_noOcc3 s)
  have e4 : replaceAll p4 r4 (mapNameStr s) = mapNameStr s :=
    replaceAll_of_no_occurrence p4 r4 _ (mapNameStr_noOcc4 s)
  have e5 : replaceAll p5 r5 (mapNameStr s) = mapNameStr s :=
    replaceAll_of_no_occurrence p5 r5 _ (mapNameStr_noOcc5 s)
  have e6 : replaceAll p6 r6 (mapNameStr s) = mapNameStr s :=
    replaceAll_of_no_occurrence p6 r6 _ (mapNameStr_noOcc6 s)
  have e7 : replaceAll p7 r7 (mapNameStr s) = mapNameStr s :=
    replaceAll_of_no_occurrence p7 r7 _ (mapNameStr_noOcc7 s)
  have e8 : replaceAll p8 r8 (mapNameStr s) = mapNameStr s :=
    replaceAll_of_no_occurrence p8 r8 _ (mapNameStr_noOcc8 s)
  rw [mapNameStr_eq (mapNameStr s), e1, e2, e3, e4, e5, e6, e7, e8]

/-- C9: the Name Normalizer is idempotent: applying map_org_name twice gives
the same table — in particular the same Org_Name column — as applying it
once. -/
theorem C9_normalizer_idempotent (df : List Row) :
    mapOrgName (mapOrgName df) = mapOrgName df := by
  simp only [mapOrgName, List.map_map]
  refine List.map_congr_left ?_
  intro r _
  simp only [Function.comp_apply, mapNameStr_idem]
